import Mathlib

/-!
Verification of the stereoscopic shower reconstruction core
(`ctapipe/reco/hillas_reconstructor.py`).

The geometry runs over `ℚ` (exact rational arithmetic; the floating-point
code computes the same formulas up to rounding).  Vectors are `V3`,
3×3 matrices are `M3`, with explicit component formulas so that every
definition is executable.  External collaborators that are not part of the
source tree (the astropy coordinate-transform machinery, transcendental
functions) are passed in as explicit parameters (`FrameOracle`), as the
specification treats them as an external capability.
-/

/-- Euclidean 3-vector with rational components, the model of a
`numpy` array of shape `(3,)`. -/
@[ext]
structure V3 where
  x : ℚ
  y : ℚ
  z : ℚ
deriving DecidableEq, Repr

namespace V3

def add (a b : V3) : V3 := ⟨a.x + b.x, a.y + b.y, a.z + b.z⟩

def sub (a b : V3) : V3 := ⟨a.x - b.x, a.y - b.y, a.z - b.z⟩

def neg (a : V3) : V3 := ⟨-a.x, -a.y, -a.z⟩

def smul (r : ℚ) (a : V3) : V3 := ⟨r * a.x, r * a.y, r * a.z⟩

/-- Dot product `v1.dot(v2)`. -/
def dot (a b : V3) : ℚ := a.x * b.x + a.y * b.y + a.z * b.z

/-- Cross product `np.cross(a, b)`. -/
def cross (a b : V3) : V3 :=
  ⟨a.y * b.z - a.z * b.y, a.z * b.x - a.x * b.z, a.x * b.y - a.y * b.x⟩

/-- Squared Euclidean norm (`np.linalg.norm(v) ** 2`). -/
def sqnorm (a : V3) : ℚ := dot a a

instance : Zero V3 := ⟨⟨0, 0, 0⟩⟩

instance : Add V3 := ⟨add⟩

instance : Sub V3 := ⟨sub⟩

instance : Neg V3 := ⟨neg⟩

instance : SMul ℚ V3 := ⟨smul⟩

instance : AddCommMonoid V3 where
  add_assoc a b c := by apply V3.ext <;> exact add_assoc _ _ _
  zero_add a := by apply V3.ext <;> exact zero_add _
  add_zero a := by apply V3.ext <;> exact add_zero _
  add_comm a b := by apply V3.ext <;> exact add_comm _ _
  nsmul := nsmulRec

end V3

/-- A 3×3 rational matrix with explicit entries (row-major naming:
`xy` is row `x`, column `y`). -/
@[ext]
structure M3 where
  xx : ℚ
  xy : ℚ
  xz : ℚ
  yx : ℚ
  yy : ℚ
  yz : ℚ
  zx : ℚ
  zy : ℚ
  zz : ℚ
deriving DecidableEq, Repr

namespace M3

def add (A B : M3) : M3 :=
  ⟨A.xx + B.xx, A.xy + B.xy, A.xz + B.xz,
   A.yx + B.yx, A.yy + B.yy, A.yz + B.yz,
   A.zx + B.zx, A.zy + B.zy, A.zz + B.zz⟩

def sub (A B : M3) : M3 :=
  ⟨A.xx - B.xx, A.xy - B.xy, A.xz - B.xz,
   A.yx - B.yx, A.yy - B.yy, A.yz - B.yz,
   A.zx - B.zx, A.zy - B.zy, A.zz - B.zz⟩

def smul (r : ℚ) (A : M3) : M3 :=
  ⟨r * A.xx, r * A.xy, r * A.xz,
   r * A.yx, r * A.yy, r * A.yz,
   r * A.zx, r * A.zy, r * A.zz⟩

/-- Identity matrix, `np.eye(3)`. -/
def eye : M3 := ⟨1, 0, 0, 0, 1, 0, 0, 0, 1⟩

/-- Matrix–vector product `A @ v`. -/
def mulVec (A : M3) (v : V3) : V3 :=
  ⟨A.xx * v.x + A.xy * v.y + A.xz * v.z,
   A.yx * v.x + A.yy * v.y + A.yz * v.z,
   A.zx * v.x + A.zy * v.y + A.zz * v.z⟩

/-- Determinant by cofactor expansion along the first row. -/
def det (A : M3) : ℚ :=
  A.xx * (A.yy * A.zz - A.yz * A.zy)
    - A.xy * (A.yx * A.zz - A.yz * A.zx)
    + A.xz * (A.yx * A.zy - A.yy * A.zx)

/-- Adjugate (transposed cofactor) matrix. -/
def adjugate (A : M3) : M3 :=
  ⟨A.yy * A.zz - A.yz * A.zy, -(A.xy * A.zz - A.xz * A.zy), A.xy * A.yz - A.xz * A.yy,
   -(A.yx * A.zz - A.yz * A.zx), A.xx * A.zz - A.xz * A.zx, -(A.xx * A.yz - A.xz * A.yx),
   A.yx * A.zy - A.yy * A.zx, -(A.xx * A.zy - A.xy * A.zx), A.xx * A.yy - A.xy * A.yx⟩

/-- Zero matrix. -/
def zeroM : M3 := ⟨0, 0, 0, 0, 0, 0, 0, 0, 0⟩

/-- Explicit list sum (the model of `np.array(list).sum(axis=0)`). -/
def listSum : List M3 → M3
  | [] => zeroM
  | A :: rest => add A (listSum rest)

end M3

/-- Bridge to the Mathlib matrix type (used only to import the fact that a
3×3 matrix with a nontrivial kernel has determinant zero, and conversely). -/
def M3.toMat (A : M3) : Matrix (Fin 3) (Fin 3) ℚ :=
  !![A.xx, A.xy, A.xz; A.yx, A.yy, A.yz; A.zx, A.zy, A.zz]

def V3.toFun (v : V3) : Fin 3 → ℚ := ![v.x, v.y, v.z]

/-- Per-line matrix `n nᵀ − I` built inside the loop of
`line_line_intersection_3d` (`norm_matrix` in the source). -/
def lineMat (n : V3) : M3 :=
  M3.sub ⟨n.x * n.x, n.x * n.y, n.x * n.z,
          n.y * n.x, n.y * n.y, n.y * n.z,
          n.z * n.x, n.z * n.y, n.z * n.z⟩ M3.eye

/-- Accumulated matrix `S = Σ (nᵢnᵢᵀ − I)` over `zip(uvw_vectors, origins)`. -/
def sumS (ls : List (V3 × V3)) : M3 :=
  M3.listSum (ls.map fun dp => lineMat dp.1)

/-- Accumulated vector `C = Σ (nᵢnᵢᵀ − I) pᵢ`. -/
def sumC (ls : List (V3 × V3)) : V3 :=
  (ls.map fun dp => (lineMat dp.1).mulVec dp.2).sum

/-- Model of `line_line_intersection_3d(uvw_vectors, origins)`.
`np.linalg.inv` raises `LinAlgError` on a singular matrix; the model
returns `none` in that case.  Otherwise the inverse is `det⁻¹ · adjugate`. -/
def line_line_intersection_3d (uvw_vectors origins : List V3) : Option V3 :=
  let ls := uvw_vectors.zip origins
  let S := sumS ls
  let C := sumC ls
  if S.det = 0 then none
  else some ((M3.smul (S.det)⁻¹ S.adjugate).mulVec C)

/-- Squared perpendicular distance from point `y` to the line through `p`
with unit direction `d`. -/
def sqDistLine (d p y : V3) : ℚ :=
  V3.sqnorm (y - p) - (V3.dot d (y - p)) ^ 2

/-- Total squared perpendicular distance from `y` to all the lines. -/
def totalSqDist (ls : List (V3 × V3)) (y : V3) : ℚ :=
  (ls.map fun dp => sqDistLine dp.1 dp.2 y).sum

/-- IEEE-754 double model restricted to what the reconstruction checks
need: exact rational values plus the special values NaN and ±infinity
(signed zero is collapsed onto the rational `0`). -/
inductive FQ where
  | fin (q : ℚ)
  | nan
  | inf
  | ninf
deriving DecidableEq, Repr

namespace FQ

/-- `np.isnan`. -/
def isNaN : FQ → Bool
  | nan => true
  | _ => false

/-- The comparison `width.value == 0` (IEEE equality: NaN and ±∞ never
compare equal to 0). -/
def isZero : FQ → Bool
  | fin q => q = 0
  | _ => false

/-- Elementwise numpy float division.  Division by zero produces `±inf`
(or NaN for `0/0`) together with a `RuntimeWarning`; it never raises
`ZeroDivisionError`. -/
def div : FQ → FQ → FQ
  | fin a, fin b =>
      if b = 0 then (if a = 0 then nan else if a > 0 then inf else ninf)
      else fin (a / b)
  | fin _, inf => fin 0
  | fin _, ninf => fin 0
  | nan, _ => nan
  | inf, fin b => if b < 0 then ninf else inf
  | inf, inf => nan
  | inf, ninf => nan
  | ninf, fin b => if b < 0 then inf else ninf
  | ninf, inf => nan
  | ninf, ninf => nan
  | _, nan => nan

end FQ

/-- A 3-vector of model floats (used only by `normalise`, whose defined
behaviour on the zero vector is the subject of C5). -/
structure FV3 where
  x : FQ
  y : FQ
  z : FQ
deriving DecidableEq, Repr

/-- Model of `normalise(vec)`, i.e. `vec / np.linalg.norm(vec)`.
The Euclidean norm is irrational in general, so its value is passed
explicitly as `nrm` (for the zero vector it is exactly `fin 0`).
The source wraps the division in `try ... except ZeroDivisionError:
return vec`, but numpy array division never raises `ZeroDivisionError`
(it emits a `RuntimeWarning` and yields NaN/inf entries), so the
passthrough branch is dead code and the division result is always
returned. -/
def normalise (nrm : FQ) (vec : FV3) : FV3 :=
  ⟨vec.x.div nrm, vec.y.div nrm, vec.z.div nrm⟩

/-- A pointing direction (alt, az); the model never interprets the two
numbers itself — all frame conversions go through the `FrameOracle`. -/
def Pointing : Type := ℚ × ℚ

instance : DecidableEq Pointing := instDecidableEqProd

/-- A sky coordinate in the shared horizon frame (alt, az), again opaque
to the model. -/
def Sky : Type := ℚ × ℚ

/-- External coordinate-transform capability (astropy / ctapipe.coordinates;
not part of the source tree under verification).  Angles are embedded as
(cos, sin) pairs since the actual maps are transcendental.
  * `camToSky p f (x, y)`: `SkyCoord(x, y, CameraFrame(f, p)).transform_to(horizon)`
  * `skyToCam p f s`:      the inverse camera projection used in divergent mode
  * `sphCartCW s`:         `np.array(spherical_to_cartesian(1, alt, −az)).ravel()`
  * `atan2CS y x`:         `(cos θ, sin θ)` for `θ = np.arctan2(y, x)`
  * `unitize v`:           `v / np.linalg.norm(v)` (`normalise` on an exact vector)
  * `groundToTilted p v`:  `SkyCoord(*v, GroundFrame()).transform_to(TiltedGroundFrame(p))`
  * `tiltedToGround p (x, y)`: `project_to_ground(SkyCoord(x, y, TiltedGroundFrame(p)))` -/
structure FrameOracle where
  camToSky : Pointing → ℚ → ℚ × ℚ → Sky
  skyToCam : Pointing → ℚ → Sky → ℚ × ℚ
  sphCartCW : Sky → V3
  atan2CS : ℚ → ℚ → ℚ × ℚ
  unitize : V3 → V3
  groundToTilted : Pointing → V3 → V3
  tiltedToGround : Pointing → ℚ × ℚ → ℚ × ℚ

/-- Per-telescope Hillas moments (`HillasParametersContainer`): centroid
`x, y`, the major-axis angle ψ embedded as `(cos ψ, sin ψ)`, the ellipse
`width` as a model float (NaN/∞ possible), and `length`/`intensity`. -/
structure Moments where
  x : ℚ
  y : ℚ
  psiCos : ℚ
  psiSin : ℚ
  width : FQ
  length : ℚ
  intensity : ℚ
deriving DecidableEq, Repr

/-- The plane weight `moments.intensity * (moments.length / moments.width)`.
`predict` rejects NaN and zero widths before any plane is built, so the
reachable cases are a nonzero rational width (exact division) and `±∞`
(where `length/±∞ = ∓0` and the product collapses to `0`); the NaN branch
is unreachable and its value is immaterial. -/
def Moments.planeWeight (m : Moments) : ℚ :=
  match m.width with
  | FQ.fin q => m.intensity * (m.length / q)
  | FQ.inf => 0
  | FQ.ninf => 0
  | FQ.nan => 0

/-- Model of `HillasPlane`: two sky directions converted to Cartesian
vectors `a`, `b`, the derived vector `c = (a × b) × a` (note: the source
does NOT normalise `c`), the plane normal `norm = normalise(a × c)`, the
telescope position and the weight. -/
structure PlaneM where
  pos : V3
  a : V3
  b : V3
  c : V3
  norm : V3
  weight : ℚ
deriving DecidableEq, Repr

/-- `HillasPlane.__init__(p1, p2, telescope_position, weight)`. -/
def mkHillasPlane (o : FrameOracle) (p1 p2 : Sky) (telescope_position : V3)
    (weight : ℚ) : PlaneM :=
  { pos := telescope_position
    a := o.sphCartCW p1
    b := o.sphCartCW p2
    c := V3.cross (V3.cross (o.sphCartCW p1) (o.sphCartCW p2)) (o.sphCartCW p1)
    norm := o.unitize (V3.cross (o.sphCartCW p1)
      (V3.cross (V3.cross (o.sphCartCW p1) (o.sphCartCW p2)) (o.sphCartCW p1)))
    weight := weight }

/-- Python-dict insertion on an association list: overwrite in place if the
key exists, append otherwise (insertion order preserved, as for `dict`). -/
def dictInsert {α : Type} : List (Nat × α) → Nat → α → List (Nat × α)
  | [], k, v => [(k, v)]
  | (k', v') :: rest, k, v =>
      if k' = k then (k, v) :: rest else (k', v') :: dictInsert rest k v

/-- The mutable state of a `HillasReconstructor` instance:
`self.hillas_planes`, `self.divergent_mode`, `self.corrected_angle_dict`
(the corrected angle ψ is stored as its (cos ψ, sin ψ) pair; the source's
later uses are exactly `np.cos(ψ)` and `np.sin(ψ)`). -/
structure RecoState where
  hillas_planes : List (Nat × PlaneM)
  divergent_mode : Bool
  corrected_angle_dict : List (Nat × (ℚ × ℚ))

/-- `HillasReconstructor.__init__`. -/
def initState : RecoState := ⟨[], false, []⟩

/-- The plane built for one telescope inside `initialize_hillas_planes`. -/
def planeFor (o : FrameOracle) (tel : Nat) (m : Moments) (focal : Nat → ℚ)
    (positions : Nat → V3) (tps : List (Nat × Pointing)) (ap : Pointing) : PlaneM :=
  mkHillasPlane o
    (o.camToSky ((List.lookup tel tps).getD ap) (focal tel) (m.x, m.y))
    (o.camToSky ((List.lookup tel tps).getD ap) (focal tel)
      (m.x + 1 / 10 * m.psiCos, m.y + 1 / 10 * m.psiSin))
    (positions tel) m.planeWeight

/-- The divergent-mode corrected angle for one telescope: re-project the
centroid and the second axis point through the array-pointing camera frame
and take `arctan2(Δy, Δx)` of the re-projected pair (returned as its
(cos, sin) embedding). -/
def correctionFor (o : FrameOracle) (tel : Nat) (m : Moments) (focal : Nat → ℚ)
    (tps : List (Nat × Pointing)) (ap : Pointing) : ℚ × ℚ :=
  o.atan2CS
    ((o.skyToCam ap (focal tel)
        (o.camToSky ((List.lookup tel tps).getD ap) (focal tel) (m.x, m.y))).2
      - (o.skyToCam ap (focal tel)
          (o.camToSky ((List.lookup tel tps).getD ap) (focal tel)
            (m.x + 1 / 10 * m.psiCos, m.y + 1 / 10 * m.psiSin))).2)
    ((o.skyToCam ap (focal tel)
        (o.camToSky ((List.lookup tel tps).getD ap) (focal tel) (m.x, m.y))).1
      - (o.skyToCam ap (focal tel)
          (o.camToSky ((List.lookup tel tps).getD ap) (focal tel)
            (m.x + 1 / 10 * m.psiCos, m.y + 1 / 10 * m.psiSin))).1)

/-- `HillasReconstructor.initialize_hillas_planes`: reset `hillas_planes`
and rebuild it from the hillas dictionary; in divergent mode additionally
record the corrected major-axis angle per telescope (the source interleaves
the two dict updates in one loop; the two dictionaries are distinct, so the
loop is equivalent to the two folds below). -/
def initHillasPlanes (o : FrameOracle) (st : RecoState)
    (hillas_dict : List (Nat × Moments)) (focal : Nat → ℚ) (positions : Nat → V3)
    (tps : List (Nat × Pointing)) (ap : Pointing) : RecoState :=
  { st with
    hillas_planes :=
      (hillas_dict.map fun tm => (tm.1, planeFor o tm.1 tm.2 focal positions tps ap)).foldl
        (fun d kv => dictInsert d kv.1 kv.2) []
    corrected_angle_dict :=
      if st.divergent_mode then
        (hillas_dict.map fun tm => (tm.1, correctionFor o tm.1 tm.2 focal tps ap)).foldl
          (fun d kv => dictInsert d kv.1 kv.2) st.corrected_angle_dict
      else st.corrected_angle_dict }

/-- `itertools.combinations(xs, 2)` in iteration order. -/
def pairsOf {α : Type} : List α → List (α × α)
  | [] => []
  | x :: xs => (xs.map fun y => (x, y)) ++ pairsOf xs

/-- The weighted pairwise plane crossings of `estimate_direction`:
`cross(norm₁, norm₂)`, canonicalized to the upper hemisphere
(`crossing *= -1` when its z-component is negative), scaled by the product
of the two plane weights. -/
def crossingsOf (planes : List PlaneM) : List V3 :=
  (pairsOf planes).map fun pq =>
    (pq.1.weight * pq.2.weight) •
      (if (V3.cross pq.1.norm pq.2.norm).z < 0
        then (-1 : ℚ) • V3.cross pq.1.norm pq.2.norm
        else V3.cross pq.1.norm pq.2.norm)

/-- The direction returned by `estimate_direction`:
`normalise(np.sum(crossings, axis=0))`. -/
def estimateDirVec (o : FrameOracle) (st : RecoState) : V3 :=
  o.unitize (crossingsOf (st.hillas_planes.map Prod.snd)).sum

/-- `len()` of a shape-`(3,)` numpy array — the number of components. -/
def npLen (_ : V3) : ℕ := 3

/-- `np.average(xs, weights=ws) = Σ xᵢwᵢ / Σ wᵢ`. -/
def npAverage (xs ws : List ℚ) : ℚ :=
  ((xs.zip ws).map fun p => p.1 * p.2).sum / ws.sum

/-- The angles `angle(result, cross)` between the final direction and each
(weighted) pairwise crossing.  The source's `angle` is
`arccos(clip(v1·v2/(‖v1‖‖v2‖), −1, 1))`, a transcendental function of its
arguments; it is passed in as the parameter `angleF`. -/
def offAngles (angleF : V3 → V3 → ℚ) (o : FrameOracle) (planes : List PlaneM) :
    List ℚ :=
  (crossingsOf planes).map fun c =>
    angleF (o.unitize (crossingsOf planes).sum) c

/-- The error estimate of `estimate_direction`:
`np.average(off_angles, weights=[len(cross) for cross in crossings])`. -/
def estimateDirErr (angleF : V3 → V3 → ℚ) (o : FrameOracle)
    (planes : List PlaneM) : ℚ :=
  npAverage (offAngles angleF o planes)
    ((crossingsOf planes).map fun c => ((npLen c : ℕ) : ℚ))

/-- `HillasReconstructor.estimate_core_position`: intersect the major-axis
ground lines `(cos ψ, sin ψ, 0)` (with divergent-corrected ψ when the flag
is set), using the telescope positions transformed to the tilted frame;
the resulting tilted point is projected back to ground coordinates.
`none` models the `LinAlgError` of a singular system. -/
def estimateCorePos (o : FrameOracle) (st : RecoState)
    (hillas_dict : List (Nat × Moments)) (ap : Pointing) : Option (ℚ × ℚ) :=
  match line_line_intersection_3d
      ((if st.divergent_mode then st.corrected_angle_dict.map Prod.snd
        else hillas_dict.map fun tm => (tm.2.psiCos, tm.2.psiSin)).map
        fun cs => V3.mk cs.1 cs.2 0)
      (st.hillas_planes.map fun tp => o.groundToTilted ap tp.2.pos) with
  | none => none
  | some core3 => some (o.tiltedToGround ap (core3.x, core3.y))

/-- `HillasReconstructor.estimate_h_max`: intersect the centroid-direction
lines (`plane.a`, `plane.pos`); the source returns the Euclidean norm of
the intersection point, recorded here as its square (the norm itself is
irrational in general). -/
def estimateHMaxSq (st : RecoState) : Option ℚ :=
  (line_line_intersection_3d
      (st.hillas_planes.map fun tp => tp.2.a)
      (st.hillas_planes.map fun tp => tp.2.pos)).map V3.sqnorm

/-- The fields of the returned `ReconstructedGeometryContainer` covered by
the model.  `alt`/`az` are `cartesian_to_spherical` of the direction vector
(with the azimuth sign flip) and `h_max` is the square root of `hMaxSq`;
both postprocessing steps are transcendental and carry no extra
information, so the container records the direction vector and the squared
height.  `alt_uncert` (the angular error estimate, see `estimateDirErr`)
is transcendental as well and is omitted. -/
structure ResultM where
  dirVec : V3
  core : ℚ × ℚ
  telIds : List Nat
  averageIntensity : ℚ
  isValid : Bool
  hMaxSq : ℚ
deriving DecidableEq, Repr

/-- The error kinds `predict` can signal: the two explicit exceptions and
the `LinAlgError` escaping from `np.linalg.inv`. -/
inductive RecoError where
  | tooFewTelescopes
  | invalidWidth
  | singular
deriving DecidableEq, Repr

/-- The body of `predict` after the input checks and the pointing setup:
build the planes, estimate direction, core position (may fail singularly)
and shower height (may fail singularly), and assemble the container with
`is_valid=True`, the hillas keys and the mean intensity. -/
def predictAssemble (o : FrameOracle) (st2 : RecoState)
    (hillas_dict : List (Nat × Moments)) (ap : Pointing) :
    RecoState × Except RecoError ResultM :=
  match estimateCorePos o st2 hillas_dict ap with
  | none => (st2, Except.error RecoError.singular)
  | some core =>
    match estimateHMaxSq st2 with
    | none => (st2, Except.error RecoError.singular)
    | some hms =>
      (st2, Except.ok
        { dirVec := estimateDirVec o st2
          core := core
          telIds := hillas_dict.map Prod.fst
          averageIntensity :=
            (hillas_dict.map fun tm => tm.2.intensity).sum
              / (hillas_dict.length : ℚ)
          isValid := true
          hMaxSq := hms })

def predictBody (o : FrameOracle) (st1 : RecoState)
    (hillas_dict : List (Nat × Moments)) (focal : Nat → ℚ) (positions : Nat → V3)
    (ap : Pointing) (tps : List (Nat × Pointing)) :
    RecoState × Except RecoError ResultM :=
  predictAssemble o (initHillasPlanes o st1 hillas_dict focal positions tps ap)
    hillas_dict ap

/-- `HillasReconstructor.predict(hillas_dict, subarray, array_pointing,
telescopes_pointings)`.  The subarray is represented by its two used
projections `focal` (equivalent focal length) and `positions` (telescope
ground position).  Returns the updated instance state together with the
result or the raised exception. -/
def predict (o : FrameOracle) (st : RecoState) (hillas_dict : List (Nat × Moments))
    (focal : Nat → ℚ) (positions : Nat → V3) (array_pointing : Pointing)
    (telescopes_pointings : Option (List (Nat × Pointing))) :
    RecoState × Except RecoError ResultM :=
  if hillas_dict.length < 2 then
    (st, Except.error RecoError.tooFewTelescopes)
  else if hillas_dict.any fun tm => tm.2.width.isNaN then
    (st, Except.error RecoError.invalidWidth)
  else if hillas_dict.any fun tm => tm.2.width.isZero then
    (st, Except.error RecoError.invalidWidth)
  else
    match telescopes_pointings with
    | none =>
        predictBody o st hillas_dict focal positions array_pointing
          (hillas_dict.map fun tm => (tm.1, array_pointing))
    | some tps =>
        predictBody o
          { st with divergent_mode := true, corrected_angle_dict := [] }
          hillas_dict focal positions array_pointing tps

/-- A concrete instantiation of the external-transform capability used for
witnesses and counterexamples: camera/sky projections are the identity on
coordinates, `spherical_to_cartesian` embeds a sky coordinate as
`(alt, az, 1)`, `arctan2` is the constant angle `0`, and normalisation and
the ground/tilted transforms are identities. -/
def oracleT : FrameOracle :=
  { camToSky := fun _ _ p => p
    skyToCam := fun _ _ s => s
    sphCartCW := fun s => ⟨s.1, s.2, 1⟩
    atan2CS := fun _ _ => (1, 0)
    unitize := fun v => v
    groundToTilted := fun _ v => v
    tiltedToGround := fun _ p => p }

instance : DecidableEq Sky := instDecidableEqProd

/-- The oracle's `unitize` behaves as exact normalisation at `v`: there is
a positive rational norm value `r` with `r² = ‖v‖²` and `unitize v = v/r`.
(For irrational `‖v‖` no rational unit vector exists, so the unit-length
property of `normalise` is expressed at the points where it is exact.) -/
def WBunitize (o : FrameOracle) (v : V3) : Prop :=
  ∃ r : ℚ, 0 < r ∧ r ^ 2 = V3.sqnorm v ∧ o.unitize v = r⁻¹ • v

/-- Concrete transform model for the C7 scenario: `sphCartCW` maps the
sky point `(0,0)` to `(1,0,0)` and everything else to `(3/5, 4/5, 0)`;
`unitize` is exact at the one vector where it is applied. -/
def oracleC7 : FrameOracle :=
  { camToSky := fun _ _ p => p
    skyToCam := fun _ _ s => s
    sphCartCW := fun s => if s = ((0 : ℚ), (0 : ℚ)) then ⟨1, 0, 0⟩ else ⟨3/5, 4/5, 0⟩
    atan2CS := fun _ _ => (1, 0)
    unitize := fun v => if v = ⟨0, 0, 4/5⟩ then ⟨0, 0, 1⟩ else v
    groundToTilted := fun _ v => v
    tiltedToGround := fun _ p => p }

/-- The algebraic characterization of `(cos θ, sin θ)` for
`θ = arctan2(y, x)` at a nonzero argument: a unit pair, collinear with
`(x, y)`, with nonnegative inner product against it.  The oracle's
`atan2CS` is "well behaved at `(y, x)`" when its value satisfies this. -/
def WBatan2 (o : FrameOracle) (y x : ℚ) : Prop :=
  (o.atan2CS y x).1 ^ 2 + (o.atan2CS y x).2 ^ 2 = 1 ∧
  (o.atan2CS y x).2 * x = (o.atan2CS y x).1 * y ∧
  0 ≤ (o.atan2CS y x).1 * x + (o.atan2CS y x).2 * y

/-- Transform model for the C6 scenario: identity camera/sky projections
(so per-telescope and array pointing frames coincide), and an `arctan2`
model that is well behaved at the argument the correction produces. -/
def oracleC6 : FrameOracle :=
  { oracleT with atan2CS := fun _ _ => (-1, 0) }

/-- Two telescopes, both with native axis direction `(cos ψ, sin ψ) = (1, 0)`. -/
def hdC6 : List (Nat × Moments) :=
  [(1, ⟨0, 0, 1, 0, FQ.fin 1, 1, 1⟩), (2, ⟨5, 7, 1, 0, FQ.fin 1, 1, 1⟩)]

/-- Explicit per-telescope pointings, all equal to the array pointing `(0,0)`. -/
def tpsC6 : List (Nat × Pointing) := [(1, (0, 0)), (2, (0, 0))]

/-- One call of a call history: the hillas dictionary, the two used
subarray projections, the array pointing, and the optional per-telescope
pointings. -/
structure CallArgs where
  hillas_dict : List (Nat × Moments)
  focal : Nat → ℚ
  positions : Nat → V3
  array_pointing : Pointing
  tps : Option (List (Nat × Pointing))

/-- Run a sequence of `predict` calls on one reconstructor instance,
threading its mutable state. -/
def runCalls (o : FrameOracle) (st : RecoState) : List CallArgs → RecoState
  | [] => st
  | c :: rest =>
      runCalls o
        (predict o st c.hillas_dict c.focal c.positions c.array_pointing c.tps).1
        rest

/-- The divergent call of the C9 scenario: two telescopes with identical
axis directions (so its own core fit is already singular — the exception
propagates only after the instance state has been mutated, as in the
source, where `self.divergent_mode` and `self.corrected_angle_dict` are
written before `estimate_core_position` raises). -/
def hdC9B : List (Nat × Moments) :=
  [(1, ⟨0, 0, 1, 0, FQ.fin 1, 1, 1⟩), (2, ⟨0, 0, 1, 0, FQ.fin 1, 1, 1⟩)]

def tpsC9B : List (Nat × Pointing) := [(1, (0, 0)), (2, (0, 0))]

/-- The follow-up parallel-pointing call of the C9 scenario. -/
def hdC9A : List (Nat × Moments) :=
  [(4, ⟨0, 0, 1, 0, FQ.fin 1, 1, 1⟩), (5, ⟨1, 0, 0, 1, FQ.fin 1, 1, 1⟩)]


namespace V3

@[simp] theorem zero_x : (0 : V3).x = 0 := rfl

@[simp] theorem zero_y : (0 : V3).y = 0 := rfl

@[simp] theorem zero_z : (0 : V3).z = 0 := rfl

@[simp] theorem add_x (a b : V3) : (a + b).x = a.x + b.x := rfl

@[simp] theorem add_y (a b : V3) : (a + b).y = a.y + b.y := rfl

@[simp] theorem add_z (a b : V3) : (a + b).z = a.z + b.z := rfl

@[simp] theorem sub_x (a b : V3) : (a - b).x = a.x - b.x := rfl

@[simp] theorem sub_y (a b : V3) : (a - b).y = a.y - b.y := rfl

@[simp] theorem sub_z (a b : V3) : (a - b).z = a.z - b.z := rfl

@[simp] theorem neg_x (a : V3) : (-a).x = -a.x := rfl

@[simp] theorem neg_y (a : V3) : (-a).y = -a.y := rfl

@[simp] theorem neg_z (a : V3) : (-a).z = -a.z := rfl

@[simp] theorem smul_x (r : ℚ) (a : V3) : (r • a).x = r * a.x := rfl

@[simp] theorem smul_y (r : ℚ) (a : V3) : (r • a).y = r * a.y := rfl

@[simp] theorem smul_z (r : ℚ) (a : V3) : (r • a).z = r * a.z := rfl

theorem sqnorm_nonneg (a : V3) : 0 ≤ sqnorm a := by
  have h : sqnorm a = a.x ^ 2 + a.y ^ 2 + a.z ^ 2 := by simp [sqnorm, dot]; ring
  rw [h]; positivity

@[simp] theorem sqnorm_zero : sqnorm (0 : V3) = 0 := by simp [sqnorm, dot]

theorem sqnorm_eq_zero_iff (a : V3) : sqnorm a = 0 ↔ a = 0 := by
  constructor
  · intro h
    simp only [sqnorm, dot] at h
    have hx : a.x ^ 2 = 0 := by nlinarith [sq_nonneg a.x, sq_nonneg a.y, sq_nonneg a.z]
    have hy : a.y ^ 2 = 0 := by nlinarith [sq_nonneg a.x, sq_nonneg a.y, sq_nonneg a.z]
    have hz : a.z ^ 2 = 0 := by nlinarith [sq_nonneg a.x, sq_nonneg a.y, sq_nonneg a.z]
    ext <;> simp <;> [exact pow_eq_zero_iff two_ne_zero |>.mp hx;
      exact pow_eq_zero_iff two_ne_zero |>.mp hy;
      exact pow_eq_zero_iff two_ne_zero |>.mp hz]
  · intro h; subst h; simp

theorem sub_eq_zero_iff (a b : V3) : a - b = 0 ↔ a = b := by
  constructor
  · intro h
    have hx := congrArg V3.x h
    have hy := congrArg V3.y h
    have hz := congrArg V3.z h
    simp at hx hy hz
    ext <;> linarith
  · intro h; subst h; ext <;> simp

theorem smul_eq_zero_iff (r : ℚ) (a : V3) : r • a = 0 ↔ r = 0 ∨ a = 0 := by
  constructor
  · intro h
    by_cases hr : r = 0
    · exact Or.inl hr
    · refine Or.inr ?_
      have hx := congrArg V3.x h
      have hy := congrArg V3.y h
      have hz := congrArg V3.z h
      simp at hx hy hz
      ext <;> simp
      · exact hx.resolve_left hr
      · exact hy.resolve_left hr
      · exact hz.resolve_left hr
  · rintro (h | h) <;> subst h <;> ext <;> simp

@[simp] theorem mk_eq_zero (a b c : ℚ) :
    (V3.mk a b c = 0) ↔ a = 0 ∧ b = 0 ∧ c = 0 := by
  rw [show (0 : V3) = ⟨0, 0, 0⟩ from rfl, V3.mk.injEq]

/-- Lagrange identity: `‖a × b‖² = ‖a‖²‖b‖² − (a·b)²`. -/
theorem lagrange (a b : V3) :
    sqnorm (cross a b) = dot a a * dot b b - (dot a b) ^ 2 := by
  simp [sqnorm, cross, dot]; ring

/-- Key polynomial identity behind `cross_trans`:
`‖v‖² (a × b) = (a·(b × v)) v − ((a·v)(b × v) − (b·v)(a × v))`. -/
theorem cross_decomp (a b v : V3) :
    (dot v v) • cross a b =
      (dot a (cross b v)) • v - ((dot a v) • cross b v - (dot b v) • cross a v) := by
  ext <;> simp [cross, dot] <;> ring

/-- If `a` and `b` are both parallel to a common nonzero vector `v`
(zero cross products), then they are parallel to each other. -/
theorem cross_trans (a b v : V3) (ha : cross a v = 0) (hb : cross b v = 0)
    (hv : v ≠ 0) : cross a b = 0 := by
  have hkey := cross_decomp a b v
  rw [ha, hb] at hkey
  have h0 : (dot v v) • cross a b = 0 := by
    rw [hkey]; ext <;> simp [dot]
  have hvv : dot v v ≠ 0 := fun h => hv ((sqnorm_eq_zero_iff v).mp h)
  rcases (smul_eq_zero_iff _ _).mp h0 with h | h
  · exact absurd h hvv
  · exact h

/-- Expansion of `‖a − r b‖²`. -/
theorem sqnorm_sub_smul (r : ℚ) (a b : V3) :
    sqnorm (a - r • b) = dot a a - 2 * r * dot a b + r ^ 2 * dot b b := by
  simp [sqnorm, dot]; ring

/-- Two parallel unit vectors differ by the sign `a·b = ±1`. -/
theorem parallel_unit (a b : V3) (ha : dot a a = 1) (hb : dot b b = 1)
    (hab : cross a b = 0) : a = (dot a b) • b ∧ (dot a b) ^ 2 = 1 := by
  have hl := lagrange a b
  rw [hab, ha, hb, sqnorm_zero] at hl
  have hsq : (dot a b) ^ 2 = 1 := by linarith
  refine ⟨?_, hsq⟩
  have h0 : sqnorm (a - (dot a b) • b) = 0 := by
    rw [sqnorm_sub_smul, ha, hb]; linear_combination (-1 : ℚ) * hsq
  have := (sub_eq_zero_iff a ((dot a b) • b)).mp ((sqnorm_eq_zero_iff _).mp h0)
  exact this

end V3

namespace M3

@[simp] theorem mulVec_zeroM (v : V3) : mulVec zeroM v = 0 := by
  ext <;> simp [mulVec, zeroM]

theorem add_mulVec (A B : M3) (v : V3) :
    mulVec (add A B) v = mulVec A v + mulVec B v := by
  ext <;> simp [mulVec, add] <;> ring

theorem mulVec_smul_mat (r : ℚ) (A : M3) (v : V3) :
    mulVec (smul r A) v = r • mulVec A v := by
  ext <;> simp [mulVec, smul] <;> ring

theorem mulVec_smul_vec (A : M3) (r : ℚ) (v : V3) :
    mulVec A (r • v) = r • mulVec A v := by
  ext <;> simp [mulVec] <;> ring

theorem mulVec_sub_vec (A : M3) (v w : V3) :
    mulVec A (v - w) = mulVec A v - mulVec A w := by
  ext <;> simp [mulVec] <;> ring

/-- Cramer identity: `A (adj A v) = (det A) v`. -/
theorem mulVec_adjugate (A : M3) (v : V3) :
    mulVec A (mulVec (adjugate A) v) = (det A) • v := by
  ext <;> simp [mulVec, adjugate, det] <;> ring

/-- Cramer identity: `adj A (A v) = (det A) v`. -/
theorem adjugate_mulVec (A : M3) (v : V3) :
    mulVec (adjugate A) (mulVec A v) = (det A) • v := by
  ext <;> simp [mulVec, adjugate, det] <;> ring

end M3

theorem M3.toMat_det (A : M3) : (toMat A).det = A.det := by
  simp [toMat, Matrix.det_fin_three, det]; ring

theorem M3.toMat_mulVec (A : M3) (v : V3) :
    (toMat A).mulVec (V3.toFun v) = V3.toFun (mulVec A v) := by
  funext i
  fin_cases i <;>
    simp [toMat, V3.toFun, Matrix.mulVec, Matrix.dotProduct, Fin.sum_univ_three, mulVec]

theorem V3.toFun_eq_zero_iff (v : V3) : toFun v = 0 ↔ v = 0 := by
  constructor
  · intro h
    have hx := congrFun h 0
    have hy := congrFun h 1
    have hz := congrFun h 2
    simp [toFun] at hx hy hz
    ext <;> assumption
  · intro h; subst h; funext i; fin_cases i <;> simp [toFun]

/-- A nonzero kernel vector forces a zero determinant. -/
theorem M3.det_eq_zero_of_kernel (A : M3) (v : V3) (hv : v ≠ 0)
    (h : mulVec A v = 0) : A.det = 0 := by
  rw [← toMat_det]
  refine (Matrix.exists_mulVec_eq_zero_iff).mp ⟨V3.toFun v, ?_, ?_⟩
  · intro hc; exact hv ((V3.toFun_eq_zero_iff v).mp hc)
  · rw [toMat_mulVec, h]
    exact (V3.toFun_eq_zero_iff 0).mpr rfl

/-- A zero determinant yields a nonzero kernel vector. -/
theorem M3.exists_kernel_of_det_eq_zero (A : M3) (h : A.det = 0) :
    ∃ v : V3, v ≠ 0 ∧ mulVec A v = 0 := by
  rw [← toMat_det] at h
  obtain ⟨w, hw0, hww⟩ := (Matrix.exists_mulVec_eq_zero_iff).mpr h
  refine ⟨⟨w 0, w 1, w 2⟩, ?_, ?_⟩
  · intro hc
    apply hw0
    have hx := congrArg V3.x hc
    have hy := congrArg V3.y hc
    have hz := congrArg V3.z hc
    simp at hx hy hz
    funext i; fin_cases i <;> simp [hx, hy, hz]
  · have hfun : V3.toFun ⟨w 0, w 1, w 2⟩ = w := by
      funext i; fin_cases i <;> simp [V3.toFun]
    have := M3.toMat_mulVec A ⟨w 0, w 1, w 2⟩
    rw [hfun, hww] at this
    exact (V3.toFun_eq_zero_iff _).mp this.symm

theorem sumS_mulVec (ls : List (V3 × V3)) (v : V3) :
    (sumS ls).mulVec v = (ls.map fun dp => (lineMat dp.1).mulVec v).sum := by
  induction ls with
  | nil => simp [sumS, M3.listSum]
  | cons hd tl ih =>
      simp only [sumS, List.map_cons, M3.listSum] at ih ⊢
      rw [M3.add_mulVec, ih, List.sum_cons]

theorem dot_list_sum (v : V3) (l : List V3) :
    V3.dot v l.sum = (l.map fun w => V3.dot v w).sum := by
  induction l with
  | nil => simp [V3.dot]
  | cons hd tl ih =>
      simp only [List.sum_cons, List.map_cons]
      rw [← ih]
      simp [V3.dot]; ring

/-- Quadratic expansion of the per-line squared distance around a point `x`
(a pure polynomial identity, no unit-length assumption). -/
theorem sqDistLine_expand (d p x y : V3) :
    sqDistLine d p y = sqDistLine d p x
      + (V3.sqnorm (y - x) - (V3.dot d (y - x)) ^ 2)
      + 2 * V3.dot (y - x) ((lineMat d).mulVec p - (lineMat d).mulVec x) := by
  simp [sqDistLine, V3.sqnorm, V3.dot, lineMat, M3.mulVec, M3.sub, M3.eye]
  ring

/-- Quadratic expansion of the total squared distance around a point `x`. -/
theorem totalSqDist_expand (ls : List (V3 × V3)) (x y : V3) :
    totalSqDist ls y = totalSqDist ls x
      + (ls.map fun dp => V3.sqnorm (y - x) - (V3.dot dp.1 (y - x)) ^ 2).sum
      + 2 * V3.dot (y - x) (sumC ls - (sumS ls).mulVec x) := by
  induction ls with
  | nil =>
      simp only [totalSqDist, sumC, sumS, List.map_nil, List.sum_nil, M3.listSum,
        M3.mulVec_zeroM]
      simp [V3.dot]
  | cons hd tl ih =>
      simp only [totalSqDist, sumC, List.map_cons, List.sum_cons] at ih ⊢
      rw [sumS_mulVec] at ih ⊢
      simp only [List.map_cons, List.sum_cons]
      have hexp := sqDistLine_expand hd.1 hd.2 x y
      have harr : ((lineMat hd.1).mulVec hd.2 + (tl.map fun dp => (lineMat dp.1).mulVec dp.2).sum)
            - ((lineMat hd.1).mulVec x + (tl.map fun dp => (lineMat dp.1).mulVec x).sum)
          = ((lineMat hd.1).mulVec hd.2 - (lineMat hd.1).mulVec x)
            + ((tl.map fun dp => (lineMat dp.1).mulVec dp.2).sum
               - (tl.map fun dp => (lineMat dp.1).mulVec x).sum) := by
        ext <;> simp <;> ring
      rw [harr]
      have hdotsplit : V3.dot (y - x)
            (((lineMat hd.1).mulVec hd.2 - (lineMat hd.1).mulVec x)
              + ((tl.map fun dp => (lineMat dp.1).mulVec dp.2).sum
                 - (tl.map fun dp => (lineMat dp.1).mulVec x).sum))
          = V3.dot (y - x) ((lineMat hd.1).mulVec hd.2 - (lineMat hd.1).mulVec x)
            + V3.dot (y - x) ((tl.map fun dp => (lineMat dp.1).mulVec dp.2).sum
               - (tl.map fun dp => (lineMat dp.1).mulVec x).sum) := by
        simp [V3.dot]; ring
      rw [hdotsplit]
      rw [hexp, ih]
      ring

/-- With a unit direction, the quadratic term is a squared cross product. -/
theorem quad_term_eq_cross (d w : V3) (hd : V3.dot d d = 1) :
    V3.sqnorm w - (V3.dot d w) ^ 2 = V3.sqnorm (V3.cross d w) := by
  rw [V3.lagrange, hd]; simp [V3.sqnorm]

theorem list_sum_eq_zero_of_nonneg {l : List ℚ} (h : ∀ q ∈ l, 0 ≤ q)
    (hs : l.sum = 0) : ∀ q ∈ l, q = 0 := by
  intro q hq
  induction l with
  | nil => cases hq
  | cons hd tl ih =>
      simp only [List.sum_cons] at hs
      have htl : 0 ≤ tl.sum := List.sum_nonneg fun x hx => h x (List.mem_cons_of_mem _ hx)
      have hhd : 0 ≤ hd := h hd (List.mem_cons_self _ _)
      have hhd0 : hd = 0 := by linarith
      have htl0 : tl.sum = 0 := by linarith
      rcases List.mem_cons.mp hq with h1 | h1
      · rw [h1, hhd0]
      · exact ih (fun x hx => h x (List.mem_cons_of_mem _ hx)) htl0 h1

theorem V3.smul_smul (r s : ℚ) (v : V3) : r • (s • v) = (r * s) • v := by
  ext <;> simp <;> ring

theorem V3.one_smul (v : V3) : (1 : ℚ) • v = v := by
  ext <;> simp

theorem V3.smul_cancel (r : ℚ) (hr : r ≠ 0) (a b : V3) (h : r • a = r • b) : a = b := by
  have hx := congrArg V3.x h
  have hy := congrArg V3.y h
  have hz := congrArg V3.z h
  simp at hx hy hz
  ext
  · exact hx.resolve_right hr
  · exact hy.resolve_right hr
  · exact hz.resolve_right hr

theorem list_sum_map_neg {α : Type} (l : List α) (g : α → ℚ) :
    (l.map fun a => -(g a)).sum = -((l.map g).sum) := by
  induction l with
  | nil => simp
  | cons hd tl ih => simp [ih]; ring

theorem list_sum_sub_v3 {α : Type} (l : List α) (f g : α → V3) :
    (l.map f).sum - (l.map g).sum = (l.map fun a => f a - g a).sum := by
  induction l with
  | nil => ext <;> simp
  | cons hd tl ih =>
      simp only [List.map_cons, List.sum_cons]
      rw [← ih]
      ext <;> simp <;> ring

/-- Energy of a direction against a kernel-candidate vector:
`v · ((nnᵀ − I) v) = (n·v)² − ‖v‖²`, which for unit `n` is `−‖n × v‖²`. -/
theorem dot_lineMat_self (d v : V3) (hd : V3.dot d d = 1) :
    V3.dot v ((lineMat d).mulVec v) = -(V3.sqnorm (V3.cross d v)) := by
  have h1 : V3.dot v ((lineMat d).mulVec v) = (V3.dot d v) ^ 2 - V3.dot v v := by
    simp [lineMat, M3.mulVec, M3.sub, M3.eye, V3.dot]; ring
  have hl := V3.lagrange d v
  rw [hd] at hl
  simp only [V3.sqnorm, V3.dot] at hl ⊢
  simp only [V3.dot] at h1
  linarith

/-- A unit direction is in the kernel of its own line matrix. -/
theorem lineMat_mulVec_self (d : V3) (hd : V3.dot d d = 1) :
    (lineMat d).mulVec d = 0 := by
  simp only [V3.dot] at hd
  ext <;> simp [lineMat, M3.mulVec, M3.sub, M3.eye]
  · linear_combination d.x * hd
  · linear_combination d.y * hd
  · linear_combination d.z * hd

/-- If the accumulated matrix `S` of `line_line_intersection_3d` is singular,
every direction is parallel to a common nonzero vector. -/
theorem sumS_singular_common_parallel (uvw origins : List V3)
    (hunit : ∀ d ∈ uvw, V3.dot d d = 1)
    (hdet : (sumS (uvw.zip origins)).det = 0) :
    ∃ v : V3, v ≠ 0 ∧ ∀ dp ∈ uvw.zip origins, V3.cross dp.1 v = 0 := by
  obtain ⟨v, hv0, hker⟩ := M3.exists_kernel_of_det_eq_zero _ hdet
  refine ⟨v, hv0, ?_⟩
  have hdot : V3.dot v ((sumS (uvw.zip origins)).mulVec v) = 0 := by
    rw [hker]; simp [V3.dot]
  rw [sumS_mulVec, dot_list_sum, List.map_map] at hdot
  have hcongr : ((uvw.zip origins).map
        (((fun w => V3.dot v w)) ∘ fun dp => (lineMat dp.1).mulVec v))
      = (uvw.zip origins).map fun dp => -(V3.sqnorm (V3.cross dp.1 v)) := by
    refine List.map_congr_left ?_
    intro dp hdp
    have hd1 : dp.1 ∈ uvw := (List.of_mem_zip hdp).1
    exact dot_lineMat_self dp.1 v (hunit dp.1 hd1)
  rw [hcongr, list_sum_map_neg] at hdot
  have hsum0 : ((uvw.zip origins).map fun dp => V3.sqnorm (V3.cross dp.1 v)).sum = 0 := by
    linarith
  intro dp hdp
  have hnn : ∀ q ∈ (uvw.zip origins).map fun dp => V3.sqnorm (V3.cross dp.1 v), 0 ≤ q := by
    intro q hq
    obtain ⟨dp', _, rfl⟩ := List.mem_map.mp hq
    exact V3.sqnorm_nonneg _
  have hz := list_sum_eq_zero_of_nonneg hnn hsum0 (V3.sqnorm (V3.cross dp.1 v))
    (List.mem_map.mpr ⟨dp, hdp, rfl⟩)
  exact (V3.sqnorm_eq_zero_iff _).mp hz

/-- Non-parallel unit directions make `S` invertible. -/
theorem sumS_det_ne_zero (uvw origins : List V3)
    (hlen : uvw.length = origins.length)
    (hunit : ∀ d ∈ uvw, V3.dot d d = 1)
    (hnp : ∃ d1 ∈ uvw, ∃ d2 ∈ uvw, V3.cross d1 d2 ≠ 0) :
    (sumS (uvw.zip origins)).det ≠ 0 := by
  intro hdet
  obtain ⟨v, hv0, hpar⟩ := sumS_singular_common_parallel uvw origins hunit hdet
  obtain ⟨d1, hd1, d2, hd2, hcr⟩ := hnp
  have hfst : (uvw.zip origins).map Prod.fst = uvw :=
    List.map_fst_zip uvw origins (le_of_eq hlen)
  have hmem : ∀ d ∈ uvw, V3.cross d v = 0 := by
    intro d hd
    rw [← hfst] at hd
    obtain ⟨dp, hdp, rfl⟩ := List.mem_map.mp hd
    exact hpar dp hdp
  exact hcr (V3.cross_trans d1 d2 v (hmem d1 hd1) (hmem d2 hd2) hv0)

/-- The point returned by the solver in the nonsingular case satisfies
the normal equations `S x = C`. -/
theorem solver_normal_equations (ls : List (V3 × V3))
    (hdet : (sumS ls).det ≠ 0) :
    (sumS ls).mulVec ((M3.smul ((sumS ls).det)⁻¹ (sumS ls).adjugate).mulVec (sumC ls))
      = sumC ls := by
  rw [M3.mulVec_smul_mat, M3.mulVec_smul_vec, M3.mulVec_adjugate, V3.smul_smul,
    inv_mul_cancel₀ hdet, V3.one_smul]

/-- With a solution of the normal equations in hand, any candidate `y` is
no better: the difference of total squared distances is a sum of squares. -/
theorem normal_equations_minimal (ls : List (V3 × V3)) (x : V3)
    (hunit : ∀ dp ∈ ls, V3.dot dp.1 dp.1 = 1)
    (hx : (sumS ls).mulVec x = sumC ls) (y : V3) :
    totalSqDist ls x ≤ totalSqDist ls y ∧
      (totalSqDist ls y = totalSqDist ls x →
        ∀ dp ∈ ls, V3.cross dp.1 (y - x) = 0) := by
  have hexp := totalSqDist_expand ls x y
  have hzero : sumC ls - (sumS ls).mulVec x = 0 := by
    rw [hx]; ext <;> simp
  rw [hzero] at hexp
  have hdot0 : V3.dot (y - x) (0 : V3) = 0 := by simp [V3.dot]
  rw [hdot0] at hexp
  have hcongr : (ls.map fun dp => V3.sqnorm (y - x) - (V3.dot dp.1 (y - x)) ^ 2)
      = ls.map fun dp => V3.sqnorm (V3.cross dp.1 (y - x)) := by
    refine List.map_congr_left ?_
    intro dp hdp
    exact quad_term_eq_cross dp.1 (y - x) (hunit dp hdp)
  rw [hcongr] at hexp
  have hnn : ∀ q ∈ ls.map fun dp => V3.sqnorm (V3.cross dp.1 (y - x)), 0 ≤ q := by
    intro q hq
    obtain ⟨dp', _, rfl⟩ := List.mem_map.mp hq
    exact V3.sqnorm_nonneg _
  constructor
  · have := List.sum_nonneg hnn
    linarith
  · intro heq dp hdp
    have hsum0 : (ls.map fun dp => V3.sqnorm (V3.cross dp.1 (y - x))).sum = 0 := by
      linarith
    have := list_sum_eq_zero_of_nonneg hnn hsum0 (V3.sqnorm (V3.cross dp.1 (y - x)))
      (List.mem_map.mpr ⟨dp, hdp, rfl⟩)
    exact (V3.sqnorm_eq_zero_iff _).mp this

/-- C1.  `line_line_intersection_3d` on `N ≥ 2` unit directions that are not
all parallel returns the unique least-squares point: the solution `x` of
`S x = C` with `S = Σ (dᵢdᵢᵀ − I)` and `C = Σ (dᵢdᵢᵀ − I) pᵢ`; `x` minimizes
the total squared perpendicular distance to all the lines (uniquely so), and
whenever all lines pass through one common point, `x` is that point. -/
theorem claim_C1 (uvw_vectors origins : List V3)
    (hlen : uvw_vectors.length = origins.length)
    (hN : 2 ≤ uvw_vectors.length)
    (hunit : ∀ d ∈ uvw_vectors, V3.dot d d = 1)
    (hnp : ∃ d1 ∈ uvw_vectors, ∃ d2 ∈ uvw_vectors, V3.cross d1 d2 ≠ 0) :
    ∃ x : V3,
      line_line_intersection_3d uvw_vectors origins = some x ∧
      (sumS (uvw_vectors.zip origins)).mulVec x = sumC (uvw_vectors.zip origins) ∧
      (∀ y : V3, totalSqDist (uvw_vectors.zip origins) x
        ≤ totalSqDist (uvw_vectors.zip origins) y) ∧
      (∀ y : V3, totalSqDist (uvw_vectors.zip origins) y
        = totalSqDist (uvw_vectors.zip origins) x → y = x) ∧
      (∀ q : V3, (∀ dp ∈ uvw_vectors.zip origins, ∃ t : ℚ, q = dp.2 + t • dp.1)
        → x = q) := by
  set ls := uvw_vectors.zip origins with hls
  have hdet : (sumS ls).det ≠ 0 := sumS_det_ne_zero uvw_vectors origins hlen hunit hnp
  have hunit' : ∀ dp ∈ ls, V3.dot dp.1 dp.1 = 1 := by
    intro dp hdp
    exact hunit dp.1 (List.of_mem_zip hdp).1
  refine ⟨(M3.smul ((sumS ls).det)⁻¹ (sumS ls).adjugate).mulVec (sumC ls), ?_, ?_, ?_, ?_, ?_⟩
  · simp only [line_line_intersection_3d]
    rw [if_neg hdet]
  · exact solver_normal_equations ls hdet
  · intro y
    exact (normal_equations_minimal ls _ hunit' (solver_normal_equations ls hdet) y).1
  · intro y heq
    set x := (M3.smul ((sumS ls).det)⁻¹ (sumS ls).adjugate).mulVec (sumC ls) with hxdef
    have hall := (normal_equations_minimal ls x hunit'
      (solver_normal_equations ls hdet) y).2 heq
    by_contra hne
    have hyx : y - x ≠ 0 := fun hc => hne ((V3.sub_eq_zero_iff y x).mp hc)
    obtain ⟨d1, hd1, d2, hd2, hcr⟩ := hnp
    have hfst : ls.map Prod.fst = uvw_vectors :=
      List.map_fst_zip uvw_vectors origins (le_of_eq hlen)
    have hmem : ∀ d ∈ uvw_vectors, V3.cross d (y - x) = 0 := by
      intro d hd
      rw [← hfst] at hd
      obtain ⟨dp, hdp, rfl⟩ := List.mem_map.mp hd
      exact hall dp hdp
    exact hcr (V3.cross_trans d1 d2 (y - x) (hmem d1 hd1) (hmem d2 hd2) hyx)
  · intro q hq
    set x := (M3.smul ((sumS ls).det)⁻¹ (sumS ls).adjugate).mulVec (sumC ls) with hxdef
    have hSq : (sumS ls).mulVec q = sumC ls := by
      have hdiff : sumC ls - (sumS ls).mulVec q = 0 := by
        rw [sumS_mulVec]
        simp only [sumC]
        rw [list_sum_sub_v3]
        refine List.sum_eq_zero ?_
        intro w hw
        obtain ⟨dp, hdp, rfl⟩ := List.mem_map.mp hw
        obtain ⟨t, ht⟩ := hq dp hdp
        have hMq : (lineMat dp.1).mulVec q
            = (lineMat dp.1).mulVec dp.2 + t • ((lineMat dp.1).mulVec dp.1) := by
          rw [ht, ← M3.mulVec_smul_vec]
          have : (lineMat dp.1).mulVec (dp.2 + t • dp.1)
              = (lineMat dp.1).mulVec dp.2 + (lineMat dp.1).mulVec (t • dp.1) := by
            ext <;> simp [M3.mulVec] <;> ring
          rw [this]
        rw [hMq, lineMat_mulVec_self dp.1 (hunit' dp hdp)]
        ext <;> simp
      have := (V3.sub_eq_zero_iff _ _).mp hdiff
      exact this.symm
    have hx : (sumS ls).mulVec x = sumC ls := solver_normal_equations ls hdet
    have hdq : V3.dot 0 0 = 0 := by simp [V3.dot]
    have h1 : (lineMat 0).mulVec 0 = 0 := by ext <;> simp [lineMat, M3.mulVec]
    have hadx : (sumS ls).adjugate.mulVec ((sumS ls).mulVec x) = (sumS ls).det • x :=
      M3.adjugate_mulVec _ _
    have hadq : (sumS ls).adjugate.mulVec ((sumS ls).mulVec q) = (sumS ls).det • q :=
      M3.adjugate_mulVec _ _
    rw [hx] at hadx
    rw [hSq] at hadq
    have : (sumS ls).det • x = (sumS ls).det • q := by rw [← hadx, ← hadq]
    exact V3.smul_cancel _ hdet _ _ this

theorem lineMat_mulVec (d v : V3) :
    (lineMat d).mulVec v = (V3.dot d v) • d - v := by
  ext <;> simp [lineMat, M3.mulVec, M3.sub, M3.eye, V3.dot] <;> ring

/-- C2.  When all unit directions are pairwise parallel, the matrix `S`
accumulated by `line_line_intersection_3d` is singular and the call fails
(`np.linalg.inv` raises `LinAlgError`, modelled as `none`); no value is
silently returned. -/
theorem claim_C2 (uvw_vectors origins : List V3)
    (hlen : uvw_vectors.length = origins.length)
    (hN : 2 ≤ uvw_vectors.length)
    (hunit : ∀ d ∈ uvw_vectors, V3.dot d d = 1)
    (hpar : ∀ d1 ∈ uvw_vectors, ∀ d2 ∈ uvw_vectors, V3.cross d1 d2 = 0) :
    line_line_intersection_3d uvw_vectors origins = none := by
  have hne : uvw_vectors ≠ [] := by
    intro hc; rw [hc] at hN; simp at hN
  set d0 := uvw_vectors.head hne with hd0
  have hd0mem : d0 ∈ uvw_vectors := List.head_mem hne
  have hd0unit : V3.dot d0 d0 = 1 := hunit d0 hd0mem
  have hd0ne : d0 ≠ 0 := by
    intro hc
    rw [hc] at hd0unit
    simp [V3.dot] at hd0unit
  have hker : (sumS (uvw_vectors.zip origins)).mulVec d0 = 0 := by
    rw [sumS_mulVec]
    refine List.sum_eq_zero ?_
    intro w hw
    obtain ⟨dp, hdp, rfl⟩ := List.mem_map.mp hw
    have hdmem : dp.1 ∈ uvw_vectors := (List.of_mem_zip hdp).1
    obtain ⟨hpar', hsq⟩ := V3.parallel_unit dp.1 d0 (hunit dp.1 hdmem) hd0unit
      (hpar dp.1 hdmem d0 hd0mem)
    rw [lineMat_mulVec]
    rw [hpar']
    have hdot : V3.dot ((V3.dot dp.1 d0) • d0) d0 = V3.dot dp.1 d0 := by
      simp only [V3.dot, V3.smul_x, V3.smul_y, V3.smul_z] at hd0unit ⊢
      linear_combination (dp.1.x * d0.x + dp.1.y * d0.y + dp.1.z * d0.z) * hd0unit
    rw [hdot, V3.smul_smul]
    have : V3.dot dp.1 d0 * V3.dot dp.1 d0 = 1 := by linear_combination hsq
    rw [this, V3.one_smul]
    ext <;> simp
  have hdet : (sumS (uvw_vectors.zip origins)).det = 0 :=
    M3.det_eq_zero_of_kernel _ d0 hd0ne hker
  simp only [line_line_intersection_3d]
  rw [if_pos hdet]

/-- Concrete instantiation of `claim_C1`: two orthogonal unit lines
through the origin. -/
theorem claim_C1_witness :
    (([⟨1, 0, 0⟩, ⟨0, 1, 0⟩] : List V3).length
        = ([⟨0, 0, 0⟩, ⟨0, 0, 0⟩] : List V3).length) ∧
    2 ≤ ([⟨1, 0, 0⟩, ⟨0, 1, 0⟩] : List V3).length ∧
    (∀ d ∈ ([⟨1, 0, 0⟩, ⟨0, 1, 0⟩] : List V3), V3.dot d d = 1) ∧
    (∃ d1 ∈ ([⟨1, 0, 0⟩, ⟨0, 1, 0⟩] : List V3),
      ∃ d2 ∈ ([⟨1, 0, 0⟩, ⟨0, 1, 0⟩] : List V3), V3.cross d1 d2 ≠ 0) ∧
    (∃ x : V3,
      line_line_intersection_3d [⟨1, 0, 0⟩, ⟨0, 1, 0⟩] [⟨0, 0, 0⟩, ⟨0, 0, 0⟩]
          = some x ∧
      (sumS (([⟨1, 0, 0⟩, ⟨0, 1, 0⟩] : List V3).zip [⟨0, 0, 0⟩, ⟨0, 0, 0⟩])).mulVec x
          = sumC (([⟨1, 0, 0⟩, ⟨0, 1, 0⟩] : List V3).zip [⟨0, 0, 0⟩, ⟨0, 0, 0⟩]) ∧
      (∀ y : V3,
        totalSqDist (([⟨1, 0, 0⟩, ⟨0, 1, 0⟩] : List V3).zip [⟨0, 0, 0⟩, ⟨0, 0, 0⟩]) x
          ≤ totalSqDist (([⟨1, 0, 0⟩, ⟨0, 1, 0⟩] : List V3).zip [⟨0, 0, 0⟩, ⟨0, 0, 0⟩]) y) ∧
      (∀ y : V3,
        totalSqDist (([⟨1, 0, 0⟩, ⟨0, 1, 0⟩] : List V3).zip [⟨0, 0, 0⟩, ⟨0, 0, 0⟩]) y
          = totalSqDist (([⟨1, 0, 0⟩, ⟨0, 1, 0⟩] : List V3).zip [⟨0, 0, 0⟩, ⟨0, 0, 0⟩]) x
          → y = x) ∧
      (∀ q : V3,
        (∀ dp ∈ ([⟨1, 0, 0⟩, ⟨0, 1, 0⟩] : List V3).zip [⟨0, 0, 0⟩, ⟨0, 0, 0⟩],
          ∃ t : ℚ, q = dp.2 + t • dp.1) → x = q)) :=
  ⟨by decide, by decide, by norm_num [V3.dot],
    ⟨⟨1, 0, 0⟩, by norm_num, ⟨0, 1, 0⟩, by norm_num, by norm_num [V3.cross]⟩,
    claim_C1 [⟨1, 0, 0⟩, ⟨0, 1, 0⟩] [⟨0, 0, 0⟩, ⟨0, 0, 0⟩]
      (by decide) (by decide) (by norm_num [V3.dot])
      ⟨⟨1, 0, 0⟩, by norm_num, ⟨0, 1, 0⟩, by norm_num, by norm_num [V3.cross]⟩⟩

/-- Concrete instantiation of `claim_C2`: two anti-parallel unit lines. -/
theorem claim_C2_witness :
    (([⟨1, 0, 0⟩, ⟨-1, 0, 0⟩] : List V3).length
        = ([⟨0, 0, 0⟩, ⟨0, 1, 0⟩] : List V3).length) ∧
    2 ≤ ([⟨1, 0, 0⟩, ⟨-1, 0, 0⟩] : List V3).length ∧
    (∀ d ∈ ([⟨1, 0, 0⟩, ⟨-1, 0, 0⟩] : List V3), V3.dot d d = 1) ∧
    (∀ d1 ∈ ([⟨1, 0, 0⟩, ⟨-1, 0, 0⟩] : List V3),
      ∀ d2 ∈ ([⟨1, 0, 0⟩, ⟨-1, 0, 0⟩] : List V3), V3.cross d1 d2 = 0) ∧
    line_line_intersection_3d [⟨1, 0, 0⟩, ⟨-1, 0, 0⟩] [⟨0, 0, 0⟩, ⟨0, 1, 0⟩] = none :=
  ⟨by decide, by decide, by norm_num [V3.dot], by norm_num [V3.cross],
    claim_C2 [⟨1, 0, 0⟩, ⟨-1, 0, 0⟩] [⟨0, 0, 0⟩, ⟨0, 1, 0⟩]
      (by decide) (by decide) (by norm_num [V3.dot]) (by norm_num [V3.cross])⟩

/-- C5 (code bug).  On the zero vector, `normalise` divides `0/0`
elementwise and returns the all-NaN vector — not its input unchanged:
the `except ZeroDivisionError` handler that was written to implement the
identity passthrough is unreachable under numpy semantics.  No exception
is raised (the model is total), but the claimed passthrough fails. -/
theorem claim_C5_normalise_zero_returns_nan :
    normalise (FQ.fin 0) ⟨FQ.fin 0, FQ.fin 0, FQ.fin 0⟩
        = ⟨FQ.nan, FQ.nan, FQ.nan⟩ ∧
    normalise (FQ.fin 0) ⟨FQ.fin 0, FQ.fin 0, FQ.fin 0⟩
        ≠ ⟨FQ.fin 0, FQ.fin 0, FQ.fin 0⟩ := by
  constructor
  · simp [normalise, FQ.div]
  · simp [normalise, FQ.div]

theorem FQ.isNaN_iff (w : FQ) : w.isNaN = true ↔ w = FQ.nan := by
  cases w <;> simp [FQ.isNaN]

theorem FQ.isZero_iff (w : FQ) : w.isZero = true ↔ w = FQ.fin 0 := by
  cases w <;> simp [FQ.isZero]

/-- After the input checks pass, the remainder of `predict` can only end in
a successful container or a singular-intersection failure — never in one of
the two input-validation exceptions. -/
theorem predictAssemble_no_input_errors (o : FrameOracle) (st2 : RecoState)
    (hd : List (Nat × Moments)) (ap : Pointing) :
    (predictAssemble o st2 hd ap).2 ≠ Except.error RecoError.tooFewTelescopes ∧
    (predictAssemble o st2 hd ap).2 ≠ Except.error RecoError.invalidWidth := by
  unfold predictAssemble
  rcases hcore : estimateCorePos o st2 hd ap with _ | core
  · simp
  · rcases hmax : estimateHMaxSq st2 with _ | hms
    · simp
    · simp

theorem predictBody_no_input_errors (o : FrameOracle) (st1 : RecoState)
    (hd : List (Nat × Moments)) (focal : Nat → ℚ) (positions : Nat → V3)
    (ap : Pointing) (tps : List (Nat × Pointing)) :
    (predictBody o st1 hd focal positions ap tps).2
        ≠ Except.error RecoError.tooFewTelescopes ∧
    (predictBody o st1 hd focal positions ap tps).2
        ≠ Except.error RecoError.invalidWidth := by
  unfold predictBody
  exact predictAssemble_no_input_errors o _ hd ap

theorem predict_ne_tooFew (o : FrameOracle) (st : RecoState)
    (hd : List (Nat × Moments)) (focal : Nat → ℚ) (positions : Nat → V3)
    (ap : Pointing) (tpsOpt : Option (List (Nat × Pointing)))
    (hlen : ¬ hd.length < 2) :
    (predict o st hd focal positions ap tpsOpt).2
      ≠ Except.error RecoError.tooFewTelescopes := by
  unfold predict
  rw [if_neg hlen]
  by_cases h1 : (hd.any fun tm => tm.2.width.isNaN) = true
  · rw [if_pos h1]; simp
  · rw [if_neg h1]
    by_cases h2 : (hd.any fun tm => tm.2.width.isZero) = true
    · rw [if_pos h2]; simp
    · rw [if_neg h2]
      cases tpsOpt with
      | none => exact (predictBody_no_input_errors o st hd focal positions ap _).1
      | some tps => exact (predictBody_no_input_errors o _ hd focal positions ap tps).1

/-- C3.  `predict` raises `TooFewTelescopesException` exactly when fewer
than two telescopes contribute, and in that case nothing else happens: the
instance state is untouched and no partial result exists. -/
theorem claim_C3 (o : FrameOracle) (st : RecoState) (hd : List (Nat × Moments))
    (focal : Nat → ℚ) (positions : Nat → V3) (ap : Pointing)
    (tpsOpt : Option (List (Nat × Pointing))) :
    ((predict o st hd focal positions ap tpsOpt).2
        = Except.error RecoError.tooFewTelescopes ↔ hd.length < 2) ∧
    (hd.length < 2 →
      predict o st hd focal positions ap tpsOpt
        = (st, Except.error RecoError.tooFewTelescopes)) := by
  have hpos : hd.length < 2 →
      predict o st hd focal positions ap tpsOpt
        = (st, Except.error RecoError.tooFewTelescopes) := by
    intro h
    unfold predict
    rw [if_pos h]
  refine ⟨⟨?_, ?_⟩, hpos⟩
  · intro h
    by_contra hlen
    exact predict_ne_tooFew o st hd focal positions ap tpsOpt hlen h
  · intro h
    rw [hpos h]

/-- Witness for C3 at a concrete one-telescope input. -/
theorem claim_C3_witness :
    ((predict ⟨fun _ _ p => p, fun _ _ s => s, fun s => ⟨s.1, s.2, 1⟩,
          fun _ _ => (1, 0), fun v => v, fun _ v => v, fun _ p => p⟩
        initState [(1, ⟨0, 0, 1, 0, FQ.fin 1, 1, 1⟩)]
        (fun _ => 1) (fun _ => 0) (0, 0) none).2
      = Except.error RecoError.tooFewTelescopes
      ↔ [(1, (⟨0, 0, 1, 0, FQ.fin 1, 1, 1⟩ : Moments))].length < 2) ∧
    ([(1, (⟨0, 0, 1, 0, FQ.fin 1, 1, 1⟩ : Moments))].length < 2 →
      predict ⟨fun _ _ p => p, fun _ _ s => s, fun s => ⟨s.1, s.2, 1⟩,
          fun _ _ => (1, 0), fun v => v, fun _ v => v, fun _ p => p⟩
        initState [(1, ⟨0, 0, 1, 0, FQ.fin 1, 1, 1⟩)]
        (fun _ => 1) (fun _ => 0) (0, 0) none
      = (initState, Except.error RecoError.tooFewTelescopes)) :=
  claim_C3 _ initState [(1, ⟨0, 0, 1, 0, FQ.fin 1, 1, 1⟩)] (fun _ => 1) (fun _ => 0)
    (0, 0) none

/-- C4 (amended).  With at least two telescopes, `predict` raises
`InvalidWidthException` exactly when some contributing width is NaN or
exactly zero; infinite widths are NOT rejected (the `np.isnan` test is
false for `±inf`), contrary to the claim. -/
theorem claim_C4_amended (o : FrameOracle) (st : RecoState)
    (hd : List (Nat × Moments)) (focal : Nat → ℚ) (positions : Nat → V3)
    (ap : Pointing) (tpsOpt : Option (List (Nat × Pointing)))
    (hlen : 2 ≤ hd.length) :
    ((predict o st hd focal positions ap tpsOpt).2
        = Except.error RecoError.invalidWidth
      ↔ ∃ tm ∈ hd, tm.2.width = FQ.nan ∨ tm.2.width = FQ.fin 0) := by
  have hlt : ¬ hd.length < 2 := not_lt.mpr hlen
  unfold predict
  rw [if_neg hlt]
  by_cases h1 : (hd.any fun tm => tm.2.width.isNaN) = true
  · rw [if_pos h1]
    constructor
    · intro _
      obtain ⟨tm, htm, hw⟩ := List.any_eq_true.mp h1
      exact ⟨tm, htm, Or.inl ((FQ.isNaN_iff _).mp hw)⟩
    · intro _; rfl
  · rw [if_neg h1]
    by_cases h2 : (hd.any fun tm => tm.2.width.isZero) = true
    · rw [if_pos h2]
      constructor
      · intro _
        obtain ⟨tm, htm, hw⟩ := List.any_eq_true.mp h2
        exact ⟨tm, htm, Or.inr ((FQ.isZero_iff _).mp hw)⟩
      · intro _; rfl
    · rw [if_neg h2]
      constructor
      · intro h
        exfalso
        cases tpsOpt with
        | none =>
            exact (predictBody_no_input_errors o st hd focal positions ap _).2 h
        | some tps =>
            exact (predictBody_no_input_errors o _ hd focal positions ap tps).2 h
      · rintro ⟨tm, htm, hw | hw⟩
        · exact absurd (List.any_eq_true.mpr ⟨tm, htm, (FQ.isNaN_iff _).mpr hw⟩) h1
        · exact absurd (List.any_eq_true.mpr ⟨tm, htm, (FQ.isZero_iff _).mpr hw⟩) h2

/-- Counterexample to C4 as stated: a two-telescope input in which one
ellipse width is `+∞` (non-finite) passes both width checks — `predict`
does not raise `InvalidWidthException` for it. -/
theorem claim_C4_counterexample :
    (∃ tm ∈ [(4, (⟨0, 0, 1, 0, FQ.fin 1, 1, 1⟩ : Moments)),
             (5, (⟨1, 0, 0, 1, FQ.inf, 1, 1⟩ : Moments))],
        tm.2.width = FQ.inf) ∧
    (predict oracleT initState
        [(4, ⟨0, 0, 1, 0, FQ.fin 1, 1, 1⟩), (5, ⟨1, 0, 0, 1, FQ.inf, 1, 1⟩)]
        (fun _ => 1) (fun _ => 0) (0, 0) none).2
      ≠ Except.error RecoError.invalidWidth := by
  constructor
  · exact ⟨(5, ⟨1, 0, 0, 1, FQ.inf, 1, 1⟩), by norm_num, rfl⟩
  · unfold predict
    norm_num [FQ.isNaN, FQ.isZero]
    exact (predictBody_no_input_errors oracleT initState _ _ _ _ _).2

/-- Witness for the amended C4 at a concrete NaN-width input. -/
theorem claim_C4_witness :
    2 ≤ ([(4, (⟨0, 0, 1, 0, FQ.nan, 1, 1⟩ : Moments)),
          (5, (⟨1, 0, 0, 1, FQ.fin 1, 1, 1⟩ : Moments))]).length ∧
    ((predict oracleT initState
        [(4, ⟨0, 0, 1, 0, FQ.nan, 1, 1⟩), (5, ⟨1, 0, 0, 1, FQ.fin 1, 1, 1⟩)]
        (fun _ => 1) (fun _ => 0) (0, 0) none).2
      = Except.error RecoError.invalidWidth
      ↔ ∃ tm ∈ [(4, (⟨0, 0, 1, 0, FQ.nan, 1, 1⟩ : Moments)),
                (5, (⟨1, 0, 0, 1, FQ.fin 1, 1, 1⟩ : Moments))],
          tm.2.width = FQ.nan ∨ tm.2.width = FQ.fin 0) :=
  ⟨by decide,
    claim_C4_amended oracleT initState _ (fun _ => 1) (fun _ => 0) (0, 0) none
      (by decide)⟩

/-- Any successful result assembled by the body of `predict` carries
`is_valid = True`, the hillas keys as telescope ids, and the mean
contributing intensity. -/
theorem predictAssemble_ok (o : FrameOracle) (st2 : RecoState)
    (hd : List (Nat × Moments)) (ap : Pointing) (r : ResultM)
    (h : (predictAssemble o st2 hd ap).2 = Except.ok r) :
    r.isValid = true ∧ r.telIds = hd.map Prod.fst ∧
      r.averageIntensity
        = (hd.map fun tm => tm.2.intensity).sum / (hd.length : ℚ) := by
  unfold predictAssemble at h
  rcases hcore : estimateCorePos o st2 hd ap with _ | core
  · rw [hcore] at h; simp at h
  · rw [hcore] at h
    rcases hmax : estimateHMaxSq st2 with _ | hms
    · rw [hmax] at h; simp at h
    · rw [hmax] at h
      simp only [Except.ok.injEq] at h
      rw [← h]
      exact ⟨rfl, rfl, rfl⟩

theorem predictBody_ok (o : FrameOracle) (st1 : RecoState)
    (hd : List (Nat × Moments)) (focal : Nat → ℚ) (positions : Nat → V3)
    (ap : Pointing) (tps : List (Nat × Pointing)) (r : ResultM)
    (h : (predictBody o st1 hd focal positions ap tps).2 = Except.ok r) :
    r.isValid = true ∧ r.telIds = hd.map Prod.fst ∧
      r.averageIntensity
        = (hd.map fun tm => tm.2.intensity).sum / (hd.length : ℚ) := by
  unfold predictBody at h
  exact predictAssemble_ok o _ hd ap r h

/-- C10.  Whenever `predict` returns a container (instead of raising), the
container has `is_valid = True`, its telescope ids are exactly the keys of
the input hillas dictionary, and its average intensity is the arithmetic
mean of the contributing intensities; no path returns `is_valid = False`. -/
theorem claim_C10 (o : FrameOracle) (st : RecoState) (hd : List (Nat × Moments))
    (focal : Nat → ℚ) (positions : Nat → V3) (ap : Pointing)
    (tpsOpt : Option (List (Nat × Pointing))) (r : ResultM)
    (h : (predict o st hd focal positions ap tpsOpt).2 = Except.ok r) :
    r.isValid = true ∧ r.telIds = hd.map Prod.fst ∧
      r.averageIntensity
        = (hd.map fun tm => tm.2.intensity).sum / (hd.length : ℚ) := by
  unfold predict at h
  by_cases h0 : hd.length < 2
  · rw [if_pos h0] at h; simp at h
  · rw [if_neg h0] at h
    by_cases h1 : (hd.any fun tm => tm.2.width.isNaN) = true
    · rw [if_pos h1] at h; simp at h
    · rw [if_neg h1] at h
      by_cases h2 : (hd.any fun tm => tm.2.width.isZero) = true
      · rw [if_pos h2] at h; simp at h
      · rw [if_neg h2] at h
        cases tpsOpt with
        | none => exact predictBody_ok o st hd focal positions ap _ r h
        | some tps => exact predictBody_ok o _ hd focal positions ap tps r h

/-- Witness for C10: a concrete two-telescope reconstruction that
succeeds, with the container fields as claimed. -/
theorem claim_C10_witness :
    (predict oracleT initState
        [(4, ⟨0, 0, 1, 0, FQ.fin 1, 1, 1⟩), (5, ⟨1, 0, 0, 1, FQ.fin 1, 1, 1⟩)]
        (fun _ => 1) (fun _ => 0) (0, 0) none).2
      = Except.ok (⟨⟨1/50, 0, 1/50⟩, (0, 0), [4, 5], 1, true, 0⟩ : ResultM) ∧
    ((⟨⟨1/50, 0, 1/50⟩, (0, 0), [4, 5], 1, true, 0⟩ : ResultM).isValid = true ∧
      (⟨⟨1/50, 0, 1/50⟩, (0, 0), [4, 5], 1, true, 0⟩ : ResultM).telIds
        = ([(4, (⟨0, 0, 1, 0, FQ.fin 1, 1, 1⟩ : Moments)),
            (5, (⟨1, 0, 0, 1, FQ.fin 1, 1, 1⟩ : Moments))]).map Prod.fst ∧
      (⟨⟨1/50, 0, 1/50⟩, (0, 0), [4, 5], 1, true, 0⟩ : ResultM).averageIntensity
        = (([(4, (⟨0, 0, 1, 0, FQ.fin 1, 1, 1⟩ : Moments)),
             (5, (⟨1, 0, 0, 1, FQ.fin 1, 1, 1⟩ : Moments))]).map
            fun tm => tm.2.intensity).sum
          / (([(4, (⟨0, 0, 1, 0, FQ.fin 1, 1, 1⟩ : Moments)),
               (5, (⟨1, 0, 0, 1, FQ.fin 1, 1, 1⟩ : Moments))]).length : ℚ)) := by
  have h : (predict oracleT initState
      [(4, ⟨0, 0, 1, 0, FQ.fin 1, 1, 1⟩), (5, ⟨1, 0, 0, 1, FQ.fin 1, 1, 1⟩)]
      (fun _ => 1) (fun _ => 0) (0, 0) none).2
      = Except.ok (⟨⟨1/50, 0, 1/50⟩, (0, 0), [4, 5], 1, true, 0⟩ : ResultM) := by
    norm_num [predict, predictBody, predictAssemble, initHillasPlanes, planeFor,
      correctionFor, mkHillasPlane, estimateCorePos, estimateHMaxSq, estimateDirVec,
      crossingsOf, pairsOf, line_line_intersection_3d, sumS, sumC, lineMat,
      M3.listSum, M3.add, M3.sub, M3.eye, M3.smul, M3.mulVec, M3.det, M3.adjugate,
      M3.zeroM, V3.cross, V3.dot, V3.sqnorm, Moments.planeWeight, FQ.isNaN,
      FQ.isZero, dictInsert, oracleT, List.lookup, npAverage, npLen, initState,
      V3.one_smul, List.sum_cons, List.sum_nil]
  exact ⟨h, claim_C10 oracleT initState _ (fun _ => 1) (fun _ => 0) (0, 0) none _ h⟩

theorem list_sum_mul_right {α : Type} (l : List α) (g : α → ℚ) (k : ℚ) :
    (l.map fun a => g a * k).sum = (l.map g).sum * k := by
  induction l with
  | nil => simp
  | cons hd tl ih => simp [ih]; ring

theorem list_sum_const {α : Type} (l : List α) (k : ℚ) :
    (l.map fun _ => k).sum = k * (l.length : ℚ) := by
  induction l with
  | nil => simp
  | cons hd tl ih => simp [ih]; ring

theorem pairsOf_length_pos {α : Type} (l : List α) (h : 2 ≤ l.length) :
    0 < (pairsOf l).length := by
  match l, h with
  | a :: b :: rest, _ =>
      simp [pairsOf]

/-- C8.  The angular-error estimate of `estimate_direction` is the
`np.average` of the off-angles weighted by `len(cross)` — a constant
weight of 3 per crossing — and therefore equals the unweighted arithmetic
mean of the off-angles. -/
theorem claim_C8 (angleF : V3 → V3 → ℚ) (o : FrameOracle)
    (planes : List PlaneM) (h : 2 ≤ planes.length) :
    estimateDirErr angleF o planes
      = npAverage (offAngles angleF o planes)
          ((crossingsOf planes).map fun c => ((npLen c : ℕ) : ℚ)) ∧
    estimateDirErr angleF o planes
      = (offAngles angleF o planes).sum
          / ((offAngles angleF o planes).length : ℚ) := by
  refine ⟨rfl, ?_⟩
  have hnpos : 0 < (crossingsOf planes).length := by
    simp only [crossingsOf, List.length_map]
    exact pairsOf_length_pos planes h
  have hlen3 : ((crossingsOf planes).map fun c => ((npLen c : ℕ) : ℚ))
      = (crossingsOf planes).map fun _ => (3 : ℚ) := by
    simp [npLen]
  unfold estimateDirErr npAverage
  rw [hlen3]
  have hzip : (offAngles angleF o planes).zip
        ((crossingsOf planes).map fun _ => (3 : ℚ))
      = (crossingsOf planes).map fun c =>
          (angleF (o.unitize (crossingsOf planes).sum) c, (3 : ℚ)) := by
    unfold offAngles
    rw [List.zip_map']
  rw [hzip]
  have hm : ((crossingsOf planes).map fun c =>
        (angleF (o.unitize (crossingsOf planes).sum) c, (3 : ℚ))).map
        (fun p => p.1 * p.2)
      = (crossingsOf planes).map fun c =>
          angleF (o.unitize (crossingsOf planes).sum) c * 3 := by
    rw [List.map_map]
    rfl
  rw [hm, list_sum_mul_right, list_sum_const]
  have hlen' : ((offAngles angleF o planes).length : ℚ)
      = ((crossingsOf planes).length : ℚ) := by
    unfold offAngles
    rw [List.length_map]
  unfold offAngles
  rw [List.length_map]
  have hq : ((crossingsOf planes).length : ℚ) ≠ 0 := by
    have : (crossingsOf planes).length ≠ 0 := Nat.pos_iff_ne_zero.mp hnpos
    exact_mod_cast this
  rw [mul_comm (3 : ℚ) ((crossingsOf planes).length : ℚ)]
  rw [mul_div_mul_right _ _ (by norm_num : (3 : ℚ) ≠ 0)]

/-- Witness for C8 at two concrete planes and a constant angle function. -/
theorem claim_C8_witness :
    2 ≤ ([⟨0, ⟨1, 0, 0⟩, ⟨0, 1, 0⟩, ⟨0, 1, 0⟩, ⟨0, 0, 1⟩, 1⟩,
          ⟨0, ⟨0, 1, 0⟩, ⟨1, 0, 0⟩, ⟨1, 0, 0⟩, ⟨0, 1, 0⟩, 1⟩] : List PlaneM).length ∧
    (estimateDirErr (fun _ _ => 2) oracleT
        [⟨0, ⟨1, 0, 0⟩, ⟨0, 1, 0⟩, ⟨0, 1, 0⟩, ⟨0, 0, 1⟩, 1⟩,
         ⟨0, ⟨0, 1, 0⟩, ⟨1, 0, 0⟩, ⟨1, 0, 0⟩, ⟨0, 1, 0⟩, 1⟩]
      = npAverage (offAngles (fun _ _ => 2) oracleT
          [⟨0, ⟨1, 0, 0⟩, ⟨0, 1, 0⟩, ⟨0, 1, 0⟩, ⟨0, 0, 1⟩, 1⟩,
           ⟨0, ⟨0, 1, 0⟩, ⟨1, 0, 0⟩, ⟨1, 0, 0⟩, ⟨0, 1, 0⟩, 1⟩])
          ((crossingsOf [⟨0, ⟨1, 0, 0⟩, ⟨0, 1, 0⟩, ⟨0, 1, 0⟩, ⟨0, 0, 1⟩, 1⟩,
              ⟨0, ⟨0, 1, 0⟩, ⟨1, 0, 0⟩, ⟨1, 0, 0⟩, ⟨0, 1, 0⟩, 1⟩]).map
            fun c => ((npLen c : ℕ) : ℚ)) ∧
    estimateDirErr (fun _ _ => 2) oracleT
        [⟨0, ⟨1, 0, 0⟩, ⟨0, 1, 0⟩, ⟨0, 1, 0⟩, ⟨0, 0, 1⟩, 1⟩,
         ⟨0, ⟨0, 1, 0⟩, ⟨1, 0, 0⟩, ⟨1, 0, 0⟩, ⟨0, 1, 0⟩, 1⟩]
      = (offAngles (fun _ _ => 2) oracleT
          [⟨0, ⟨1, 0, 0⟩, ⟨0, 1, 0⟩, ⟨0, 1, 0⟩, ⟨0, 0, 1⟩, 1⟩,
           ⟨0, ⟨0, 1, 0⟩, ⟨1, 0, 0⟩, ⟨1, 0, 0⟩, ⟨0, 1, 0⟩, 1⟩]).sum
        / ((offAngles (fun _ _ => 2) oracleT
            [⟨0, ⟨1, 0, 0⟩, ⟨0, 1, 0⟩, ⟨0, 1, 0⟩, ⟨0, 0, 1⟩, 1⟩,
             ⟨0, ⟨0, 1, 0⟩, ⟨1, 0, 0⟩, ⟨1, 0, 0⟩, ⟨0, 1, 0⟩, 1⟩]).length : ℚ)) :=
  ⟨by decide, claim_C8 (fun _ _ => 2) oracleT _ (by decide)⟩

theorem V3.dot_cross_left (a b : V3) : V3.dot (V3.cross a b) a = 0 := by
  simp [V3.cross, V3.dot]; ring

@[simp] theorem V3.smul_mk (r x y z : ℚ) :
    r • V3.mk x y z = V3.mk (r * x) (r * y) (r * z) := rfl

@[simp] theorem mkHillasPlane_pos (o : FrameOracle) (p1 p2 : Sky) (tp : V3) (w : ℚ) :
    (mkHillasPlane o p1 p2 tp w).pos = tp := rfl

@[simp] theorem mkHillasPlane_a (o : FrameOracle) (p1 p2 : Sky) (tp : V3) (w : ℚ) :
    (mkHillasPlane o p1 p2 tp w).a = o.sphCartCW p1 := rfl

@[simp] theorem mkHillasPlane_b (o : FrameOracle) (p1 p2 : Sky) (tp : V3) (w : ℚ) :
    (mkHillasPlane o p1 p2 tp w).b = o.sphCartCW p2 := rfl

@[simp] theorem mkHillasPlane_c (o : FrameOracle) (p1 p2 : Sky) (tp : V3) (w : ℚ) :
    (mkHillasPlane o p1 p2 tp w).c
      = V3.cross (V3.cross (o.sphCartCW p1) (o.sphCartCW p2)) (o.sphCartCW p1) := rfl

@[simp] theorem mkHillasPlane_norm (o : FrameOracle) (p1 p2 : Sky) (tp : V3) (w : ℚ) :
    (mkHillasPlane o p1 p2 tp w).norm
      = o.unitize (V3.cross (o.sphCartCW p1)
          (V3.cross (V3.cross (o.sphCartCW p1) (o.sphCartCW p2)) (o.sphCartCW p1))) :=
  rfl

/-- `a × ((a × b) × a) = ‖a‖² (a × b)`: the stored plane normal direction
is a multiple of `a × b`. -/
theorem V3.cross_c_eq (a b : V3) :
    V3.cross a (V3.cross (V3.cross a b) a) = (V3.dot a a) • V3.cross a b := by
  ext <;> simp [V3.cross, V3.dot] <;> ring

theorem V3.sqnorm_smul (r : ℚ) (v : V3) :
    V3.sqnorm (r • v) = r ^ 2 * V3.sqnorm v := by
  simp [V3.sqnorm, V3.dot]; ring

/-- C7 (amended).  For a `HillasPlane` built from unit directions `a`, `b`:
`a` and `b` are unit; the stored `c` is `(a × b) × a` WITHOUT the
normalisation claimed by the spec — its squared length is `‖a × b‖²`
(so `c` is not unit unless `a ⊥ b`); and `a × c = a × b`, so the stored
`norm = normalise(a × c)` is unit whenever the normalisation is exact. -/
theorem claim_C7_amended (o : FrameOracle) (p1 p2 : Sky) (pos : V3) (w : ℚ)
    (ha : V3.dot (o.sphCartCW p1) (o.sphCartCW p1) = 1)
    (hb : V3.dot (o.sphCartCW p2) (o.sphCartCW p2) = 1) :
    V3.dot (mkHillasPlane o p1 p2 pos w).a (mkHillasPlane o p1 p2 pos w).a = 1 ∧
    V3.dot (mkHillasPlane o p1 p2 pos w).b (mkHillasPlane o p1 p2 pos w).b = 1 ∧
    (mkHillasPlane o p1 p2 pos w).c
      = V3.cross
          (V3.cross (mkHillasPlane o p1 p2 pos w).a (mkHillasPlane o p1 p2 pos w).b)
          (mkHillasPlane o p1 p2 pos w).a ∧
    V3.sqnorm (mkHillasPlane o p1 p2 pos w).c
      = V3.sqnorm
          (V3.cross (mkHillasPlane o p1 p2 pos w).a (mkHillasPlane o p1 p2 pos w).b) ∧
    V3.cross (mkHillasPlane o p1 p2 pos w).a (mkHillasPlane o p1 p2 pos w).c
      = V3.cross (mkHillasPlane o p1 p2 pos w).a (mkHillasPlane o p1 p2 pos w).b ∧
    (WBunitize o
        (V3.cross (mkHillasPlane o p1 p2 pos w).a (mkHillasPlane o p1 p2 pos w).c) →
      V3.sqnorm (mkHillasPlane o p1 p2 pos w).norm = 1) := by
  refine ⟨?_, ?_, ?_, ?_, ?_, ?_⟩
  · rw [mkHillasPlane_a]; exact ha
  · rw [mkHillasPlane_b]; exact hb
  · rw [mkHillasPlane_c, mkHillasPlane_a, mkHillasPlane_b]
  · rw [mkHillasPlane_c, mkHillasPlane_a, mkHillasPlane_b]
    rw [V3.lagrange (V3.cross (o.sphCartCW p1) (o.sphCartCW p2)) (o.sphCartCW p1)]
    rw [ha, V3.dot_cross_left]
    simp [V3.sqnorm]
  · rw [mkHillasPlane_c, mkHillasPlane_a, mkHillasPlane_b]
    rw [V3.cross_c_eq, ha, V3.one_smul]
  · rw [mkHillasPlane_c, mkHillasPlane_a, mkHillasPlane_norm]
    rintro ⟨r, hr, hr2, heq⟩
    rw [heq, V3.sqnorm_smul, ← hr2]
    field_simp

/-- Counterexample to C7 as stated: for the unit, non-coincident
directions `a = (1,0,0)` and `b = (3/5, 4/5, 0)` the stored vector `c`
has squared length `16/25 ≠ 1` — it is not unit and hence differs from the
claimed `normalize((a × b) × a)`. -/
theorem claim_C7_counterexample :
    V3.dot (mkHillasPlane oracleC7 (0, 0) (1, 1) 0 1).a
        (mkHillasPlane oracleC7 (0, 0) (1, 1) 0 1).a = 1 ∧
    V3.dot (mkHillasPlane oracleC7 (0, 0) (1, 1) 0 1).b
        (mkHillasPlane oracleC7 (0, 0) (1, 1) 0 1).b = 1 ∧
    (mkHillasPlane oracleC7 (0, 0) (1, 1) 0 1).a
        ≠ (mkHillasPlane oracleC7 (0, 0) (1, 1) 0 1).b ∧
    V3.sqnorm (mkHillasPlane oracleC7 (0, 0) (1, 1) 0 1).c ≠ 1 := by
  norm_num [mkHillasPlane, oracleC7, V3.cross, V3.dot, V3.sqnorm]

/-- Witness for the amended C7 at the same concrete plane, including the
exactness of the normalisation at the used vector. -/
theorem claim_C7_witness :
    V3.dot (oracleC7.sphCartCW (0, 0)) (oracleC7.sphCartCW (0, 0)) = 1 ∧
    V3.dot (oracleC7.sphCartCW (1, 1)) (oracleC7.sphCartCW (1, 1)) = 1 ∧
    WBunitize oracleC7
      (V3.cross (mkHillasPlane oracleC7 (0, 0) (1, 1) 0 1).a
        (mkHillasPlane oracleC7 (0, 0) (1, 1) 0 1).c) ∧
    (V3.dot (mkHillasPlane oracleC7 (0, 0) (1, 1) 0 1).a
        (mkHillasPlane oracleC7 (0, 0) (1, 1) 0 1).a = 1 ∧
     V3.dot (mkHillasPlane oracleC7 (0, 0) (1, 1) 0 1).b
        (mkHillasPlane oracleC7 (0, 0) (1, 1) 0 1).b = 1 ∧
     (mkHillasPlane oracleC7 (0, 0) (1, 1) 0 1).c
       = V3.cross
           (V3.cross (mkHillasPlane oracleC7 (0, 0) (1, 1) 0 1).a
             (mkHillasPlane oracleC7 (0, 0) (1, 1) 0 1).b)
           (mkHillasPlane oracleC7 (0, 0) (1, 1) 0 1).a ∧
     V3.sqnorm (mkHillasPlane oracleC7 (0, 0) (1, 1) 0 1).c
       = V3.sqnorm
           (V3.cross (mkHillasPlane oracleC7 (0, 0) (1, 1) 0 1).a
             (mkHillasPlane oracleC7 (0, 0) (1, 1) 0 1).b) ∧
     V3.cross (mkHillasPlane oracleC7 (0, 0) (1, 1) 0 1).a
         (mkHillasPlane oracleC7 (0, 0) (1, 1) 0 1).c
       = V3.cross (mkHillasPlane oracleC7 (0, 0) (1, 1) 0 1).a
           (mkHillasPlane oracleC7 (0, 0) (1, 1) 0 1).b ∧
     (WBunitize oracleC7
         (V3.cross (mkHillasPlane oracleC7 (0, 0) (1, 1) 0 1).a
           (mkHillasPlane oracleC7 (0, 0) (1, 1) 0 1).c) →
       V3.sqnorm (mkHillasPlane oracleC7 (0, 0) (1, 1) 0 1).norm = 1)) := by
  refine ⟨by norm_num [oracleC7, V3.dot], by norm_num [oracleC7, V3.dot], ?_, ?_⟩
  · refine ⟨4/5, by norm_num, ?_, ?_⟩
    · norm_num [mkHillasPlane, oracleC7, V3.cross, V3.sqnorm, V3.dot]
    · norm_num [mkHillasPlane, oracleC7, V3.cross]
  · exact claim_C7_amended oracleC7 (0, 0) (1, 1) 0 1
      (by norm_num [oracleC7, V3.dot]) (by norm_num [oracleC7, V3.dot])

/-- The characterization above determines the pair uniquely. -/
theorem atan2_char_unique (x y c s c' s' : ℚ) (hxy : ¬(x = 0 ∧ y = 0))
    (h1 : c ^ 2 + s ^ 2 = 1) (h2 : s * x = c * y) (h3 : 0 ≤ c * x + s * y)
    (h1' : c' ^ 2 + s' ^ 2 = 1) (h2' : s' * x = c' * y)
    (h3' : 0 ≤ c' * x + s' * y) :
    c = c' ∧ s = s' := by
  have hDx : (s * c' - s' * c) * x = 0 := by linear_combination c' * h2 - c * h2'
  have hDy : (s * c' - s' * c) * y = 0 := by linear_combination s' * h2 - s * h2'
  have hD : s * c' - s' * c = 0 := by
    rcases mul_eq_zero.mp hDx with h | hx0
    · exact h
    · rcases mul_eq_zero.mp hDy with h | hy0
      · exact h
      · exact absurd ⟨hx0, hy0⟩ hxy
  have hI : (c * c' + s * s') ^ 2 = 1 := by
    have hkey : (c * c' + s * s') ^ 2 + (s * c' - s' * c) ^ 2
        = (c ^ 2 + s ^ 2) * (c' ^ 2 + s' ^ 2) := by ring
    rw [hD, h1, h1'] at hkey
    linarith [hkey]
  have hfac : (c * c' + s * s' - 1) * (c * c' + s * s' + 1) = 0 := by
    linear_combination hI
  rcases mul_eq_zero.mp hfac with hIeq | hIeq
  · have hIeq1 : c * c' + s * s' = 1 := by linarith
    have h0 : (c - c') ^ 2 + (s - s') ^ 2 = 0 := by
      linear_combination h1 + h1' - 2 * hIeq1
    have hc : (c - c') ^ 2 = 0 := by nlinarith [sq_nonneg (c - c'), sq_nonneg (s - s')]
    have hs : (s - s') ^ 2 = 0 := by nlinarith [sq_nonneg (c - c'), sq_nonneg (s - s')]
    constructor
    · have := pow_eq_zero_iff two_ne_zero |>.mp hc
      linarith [this]
    · have := pow_eq_zero_iff two_ne_zero |>.mp hs
      linarith [this]
  · exfalso
    have hIeq1 : c * c' + s * s' = -1 := by linarith
    have h0 : (c + c') ^ 2 + (s + s') ^ 2 = 0 := by
      linear_combination h1 + h1' + 2 * hIeq1
    have hc : (c + c') ^ 2 = 0 := by nlinarith [sq_nonneg (c + c'), sq_nonneg (s + s')]
    have hs : (s + s') ^ 2 = 0 := by nlinarith [sq_nonneg (c + c'), sq_nonneg (s + s')]
    have hc' : c' = -c := by
      have := pow_eq_zero_iff two_ne_zero |>.mp hc; linarith [this]
    have hs' : s' = -s := by
      have := pow_eq_zero_iff two_ne_zero |>.mp hs; linarith [this]
    rw [hc', hs'] at h3'
    have hsum0 : c * x + s * y = 0 := by nlinarith [h3, h3']
    have hx0 : x = 0 := by
      have : x * (c ^ 2 + s ^ 2) = c * (c * x + s * y) + s * (s * x - c * y) := by ring
      rw [h1, hsum0, sub_eq_zero_of_eq h2] at this
      simpa using this
    have hy0 : y = 0 := by
      have : y * (c ^ 2 + s ^ 2) = s * (c * x + s * y) - c * (s * x - c * y) := by ring
      rw [h1, hsum0, sub_eq_zero_of_eq h2] at this
      simpa using this
    exact hxy ⟨hx0, hy0⟩

/-- At the specific argument produced by an identity re-projection, a
well-behaved `arctan2` returns the REVERSED axis direction `(−cos ψ, −sin ψ)`:
the corrected angle is `ψ + π` (mod 2π), not `ψ`. -/
theorem atan2CS_reversed (o : FrameOracle) (c0 s0 : ℚ)
    (hunit : c0 ^ 2 + s0 ^ 2 = 1)
    (hWB : WBatan2 o (-(1 / 10) * s0) (-(1 / 10) * c0)) :
    o.atan2CS (-(1 / 10) * s0) (-(1 / 10) * c0) = (-c0, -s0) := by
  obtain ⟨h1, h2, h3⟩ := hWB
  have hxy : ¬(-(1 / 10) * c0 = 0 ∧ -(1 / 10) * s0 = 0) := by
    rintro ⟨hx, hy⟩
    have hc : c0 = 0 := by linarith
    have hs : s0 = 0 := by linarith
    rw [hc, hs] at hunit
    norm_num at hunit
  have h1' : (-c0) ^ 2 + (-s0) ^ 2 = 1 := by linear_combination hunit
  have h2' : (-s0) * (-(1 / 10) * c0) = (-c0) * (-(1 / 10) * s0) := by ring
  have h3' : 0 ≤ (-c0) * (-(1 / 10) * c0) + (-s0) * (-(1 / 10) * s0) := by
    nlinarith [hunit]
  obtain ⟨hc, hs⟩ := atan2_char_unique (-(1 / 10) * c0) (-(1 / 10) * s0)
    (o.atan2CS (-(1 / 10) * s0) (-(1 / 10) * c0)).1
    (o.atan2CS (-(1 / 10) * s0) (-(1 / 10) * c0)).2
    (-c0) (-s0) hxy h1 h2 h3 h1' h2' h3'
  exact Prod.ext hc hs

theorem dictInsert_append {α : Type} (d : List (Nat × α)) (k : Nat) (v : α)
    (hk : ∀ kv ∈ d, kv.1 ≠ k) : dictInsert d k v = d ++ [(k, v)] := by
  induction d with
  | nil => rfl
  | cons hd tl ih =>
      simp only [dictInsert]
      rw [if_neg (hk hd (List.mem_cons_self _ _))]
      rw [ih fun kv hkv => hk kv (List.mem_cons_of_mem _ hkv)]
      simp

theorem foldl_dictInsert_disjoint {α : Type} (kvs : List (Nat × α)) :
    ∀ d : List (Nat × α),
    (∀ kv ∈ kvs, ∀ kv' ∈ d, kv'.1 ≠ kv.1) → (kvs.map Prod.fst).Nodup →
    kvs.foldl (fun acc kv => dictInsert acc kv.1 kv.2) d = d ++ kvs := by
  induction kvs with
  | nil => intro d _ _; simp
  | cons hd tl ih =>
      intro d hdisj hnd
      simp only [List.foldl_cons]
      rw [show dictInsert d hd.1 hd.2 = d ++ [(hd.1, hd.2)] from
        dictInsert_append d hd.1 hd.2 fun kv' hkv' =>
          hdisj hd (List.mem_cons_self _ _) kv' hkv']
      simp only [List.map_cons, List.nodup_cons] at hnd
      rw [ih (d ++ [(hd.1, hd.2)]) ?_ hnd.2]
      · simp
      · intro kv hkv kv' hkv'
        rcases List.mem_append.mp hkv' with h | h
        · exact hdisj kv (List.mem_cons_of_mem _ hkv) kv' h
        · have : kv' = (hd.1, hd.2) := List.mem_singleton.mp h
          rw [this]
          intro hcontra
          exact hnd.1 (hcontra ▸ List.mem_map_of_mem Prod.fst hkv)

theorem foldl_dictInsert_nil {α : Type} (kvs : List (Nat × α))
    (hnd : (kvs.map Prod.fst).Nodup) :
    kvs.foldl (fun acc kv => dictInsert acc kv.1 kv.2) [] = kvs := by
  rw [foldl_dictInsert_disjoint kvs [] (by intro kv _ kv' h; cases h) hnd]
  simp

/-- In the all-parallel-pointing case the camera→sky→camera round trip is
the identity, so the corrected angle is `arctan2` of minus one tenth of
the axis direction. -/
theorem correctionFor_parallel (o : FrameOracle) (tel : Nat) (m : Moments)
    (focal : Nat → ℚ) (tps : List (Nat × Pointing)) (ap : Pointing)
    (hlook : List.lookup tel tps = some ap)
    (hrt : ∀ f pnt, o.skyToCam ap f (o.camToSky ap f pnt) = pnt) :
    correctionFor o tel m focal tps ap
      = o.atan2CS (-(1 / 10) * m.psiSin) (-(1 / 10) * m.psiCos) := by
  unfold correctionFor
  rw [hlook]
  simp only [Option.getD_some, hrt]
  congr 1 <;> ring

theorem predictAssemble_fst (o : FrameOracle) (st2 : RecoState)
    (hd : List (Nat × Moments)) (ap : Pointing) :
    (predictAssemble o st2 hd ap).1 = st2 := by
  unfold predictAssemble
  rcases estimateCorePos o st2 hd ap with _ | core
  · rfl
  · rcases estimateHMaxSq st2 with _ | hms <;> rfl

/-- C6 (amended).  When explicit per-telescope pointings are supplied and
every pointing equals the array pointing, the divergent-mode correction
records, for every telescope, the REVERSED axis direction
`(−cos ψ, −sin ψ)` — i.e. the corrected angle is `ψ + π` (mod 2π), the
same major-axis line but not the same angle: the correction is a no-op
only on the unoriented axis (mod π), not on ψ itself as claimed. -/
theorem claim_C6_amended (o : FrameOracle) (st : RecoState)
    (hd : List (Nat × Moments)) (focal : Nat → ℚ) (positions : Nat → V3)
    (ap : Pointing) (tps : List (Nat × Pointing))
    (hrt : ∀ f pnt, o.skyToCam ap f (o.camToSky ap f pnt) = pnt)
    (hlook : ∀ tm ∈ hd, List.lookup tm.1 tps = some ap)
    (hpsi : ∀ tm ∈ hd, tm.2.psiCos ^ 2 + tm.2.psiSin ^ 2 = 1)
    (hWB : ∀ tm ∈ hd, WBatan2 o (-(1 / 10) * tm.2.psiSin) (-(1 / 10) * tm.2.psiCos))
    (hnd : (hd.map Prod.fst).Nodup)
    (hlen : ¬ hd.length < 2)
    (h1 : (hd.any fun tm => tm.2.width.isNaN) = false)
    (h2 : (hd.any fun tm => tm.2.width.isZero) = false) :
    (predict o st hd focal positions ap (some tps)).1.corrected_angle_dict
      = hd.map fun tm => (tm.1, (-tm.2.psiCos, -tm.2.psiSin)) := by
  unfold predict
  rw [if_neg hlen, if_neg (by simp [h1]), if_neg (by simp [h2])]
  unfold predictBody
  rw [predictAssemble_fst]
  unfold initHillasPlanes
  simp only []
  simp only [if_true]
  have hmapfst : ((hd.map fun tm => (tm.1, correctionFor o tm.1 tm.2 focal tps ap)).map
      Prod.fst) = hd.map Prod.fst := by
    rw [List.map_map]
    rfl
  rw [foldl_dictInsert_nil _ (by rw [hmapfst]; exact hnd)]
  refine List.map_congr_left ?_
  intro tm htm
  rw [correctionFor_parallel o tm.1 tm.2 focal tps ap (hlook tm htm) hrt]
  rw [atan2CS_reversed o tm.2.psiCos tm.2.psiSin (hpsi tm htm) (hWB tm htm)]

/-- Counterexample to C6 as stated: with explicit pointings all equal to
the array pointing, an exact round trip and a well-behaved `arctan2`, the
recorded corrected axis directions are `(−1, 0)` — the reverse of the
native `(1, 0)` — so the corrected angle is ψ + π, NOT ψ. -/
theorem claim_C6_counterexample :
    (∀ f pnt, oracleC6.skyToCam (0, 0) f (oracleC6.camToSky (0, 0) f pnt) = pnt) ∧
    (∀ tm ∈ hdC6, List.lookup tm.1 tpsC6 = some ((0 : ℚ), (0 : ℚ))) ∧
    (∀ tm ∈ hdC6, tm.2.psiCos ^ 2 + tm.2.psiSin ^ 2 = 1) ∧
    (∀ tm ∈ hdC6,
      WBatan2 oracleC6 (-(1 / 10) * tm.2.psiSin) (-(1 / 10) * tm.2.psiCos)) ∧
    (predict oracleC6 initState hdC6 (fun _ => 1) (fun _ => 0) (0, 0)
        (some tpsC6)).1.corrected_angle_dict
      ≠ hdC6.map fun tm => (tm.1, (tm.2.psiCos, tm.2.psiSin)) := by
  refine ⟨fun _ _ => rfl, ?_, ?_, ?_, ?_⟩
  · intro tm htm
    simp only [hdC6, List.mem_cons, List.not_mem_nil, or_false] at htm
    rcases htm with rfl | rfl <;> rfl
  · norm_num [hdC6]
  · intro tm htm
    simp only [hdC6, List.mem_cons, List.not_mem_nil, or_false] at htm
    rcases htm with rfl | rfl <;> norm_num [WBatan2, oracleC6, oracleT]
  · norm_num [predict, predictBody, predictAssemble, initHillasPlanes, planeFor,
      correctionFor, mkHillasPlane, estimateCorePos, estimateHMaxSq, estimateDirVec,
      crossingsOf, pairsOf, line_line_intersection_3d, sumS, sumC, lineMat,
      M3.listSum, M3.add, M3.sub, M3.eye, M3.smul, M3.mulVec, M3.det, M3.adjugate,
      M3.zeroM, V3.cross, V3.dot, V3.sqnorm, Moments.planeWeight, FQ.isNaN,
      FQ.isZero, dictInsert, oracleC6, oracleT, List.lookup, initState, hdC6, tpsC6,
      V3.one_smul, List.sum_cons, List.sum_nil]

/-- Witness for the amended C6 at the same concrete instance. -/
theorem claim_C6_witness :
    (predict oracleC6 initState hdC6 (fun _ => 1) (fun _ => 0) (0, 0)
        (some tpsC6)).1.corrected_angle_dict
      = hdC6.map fun tm => (tm.1, (-tm.2.psiCos, -tm.2.psiSin)) :=
  claim_C6_amended oracleC6 initState hdC6 (fun _ => 1) (fun _ => 0) (0, 0) tpsC6
    (fun _ _ => rfl)
    (by intro tm htm
        simp only [hdC6, List.mem_cons, List.not_mem_nil, or_false] at htm
        rcases htm with rfl | rfl <;> rfl)
    (by norm_num [hdC6])
    (by intro tm htm
        simp only [hdC6, List.mem_cons, List.not_mem_nil, or_false] at htm
        rcases htm with rfl | rfl <;> norm_num [WBatan2, oracleC6, oracleT])
    (by norm_num [hdC6])
    (by norm_num [hdC6])
    (by norm_num [hdC6, FQ.isNaN])
    (by norm_num [hdC6, FQ.isZero])

theorem initHillasPlanes_divergent_mode (o : FrameOracle) (st : RecoState)
    (hd : List (Nat × Moments)) (focal : Nat → ℚ) (positions : Nat → V3)
    (tps : List (Nat × Pointing)) (ap : Pointing) :
    (initHillasPlanes o st hd focal positions tps ap).divergent_mode
      = st.divergent_mode := rfl

theorem initHillasPlanes_planes_const (o : FrameOracle) (st st' : RecoState)
    (hd : List (Nat × Moments)) (focal : Nat → ℚ) (positions : Nat → V3)
    (tps : List (Nat × Pointing)) (ap : Pointing) :
    (initHillasPlanes o st hd focal positions tps ap).hillas_planes
      = (initHillasPlanes o st' hd focal positions tps ap).hillas_planes := rfl

theorem estimateCorePos_congr (o : FrameOracle) (st st' : RecoState)
    (hd : List (Nat × Moments)) (ap : Pointing)
    (hflag : st.divergent_mode = false) (hflag' : st'.divergent_mode = false)
    (hplanes : st.hillas_planes = st'.hillas_planes) :
    estimateCorePos o st hd ap = estimateCorePos o st' hd ap := by
  unfold estimateCorePos
  rw [hplanes]
  simp [hflag, hflag']

theorem estimateHMaxSq_congr (st st' : RecoState)
    (hplanes : st.hillas_planes = st'.hillas_planes) :
    estimateHMaxSq st = estimateHMaxSq st' := by
  unfold estimateHMaxSq
  rw [hplanes]

theorem estimateDirVec_congr (o : FrameOracle) (st st' : RecoState)
    (hplanes : st.hillas_planes = st'.hillas_planes) :
    estimateDirVec o st = estimateDirVec o st' := by
  unfold estimateDirVec
  rw [hplanes]

theorem predictAssemble_snd (o : FrameOracle) (st2 : RecoState)
    (hd : List (Nat × Moments)) (ap : Pointing) :
    (predictAssemble o st2 hd ap).2
      = match estimateCorePos o st2 hd ap with
        | none => Except.error RecoError.singular
        | some core =>
          match estimateHMaxSq st2 with
          | none => Except.error RecoError.singular
          | some hms => Except.ok
              { dirVec := estimateDirVec o st2
                core := core
                telIds := hd.map Prod.fst
                averageIntensity :=
                  (hd.map fun tm => tm.2.intensity).sum / (hd.length : ℚ)
                isValid := true
                hMaxSq := hms } := by
  unfold predictAssemble
  rcases estimateCorePos o st2 hd ap with _ | core
  · rfl
  · rcases estimateHMaxSq st2 with _ | hms <;> rfl

theorem predictAssemble_snd_congr (o : FrameOracle) (st2 st2' : RecoState)
    (hd : List (Nat × Moments)) (ap : Pointing)
    (hflag : st2.divergent_mode = false) (hflag' : st2'.divergent_mode = false)
    (hplanes : st2.hillas_planes = st2'.hillas_planes) :
    (predictAssemble o st2 hd ap).2 = (predictAssemble o st2' hd ap).2 := by
  rw [predictAssemble_snd, predictAssemble_snd]
  rw [estimateCorePos_congr o st2 st2' hd ap hflag hflag' hplanes]
  rw [estimateHMaxSq_congr st2 st2' hplanes]
  rw [estimateDirVec_congr o st2 st2' hplanes]

/-- A non-divergent `predict` call reads the instance state only through
the (false) divergent flag: its outcome is the same as on a fresh
instance. -/
theorem predict_none_snd_congr (o : FrameOracle) (st st' : RecoState)
    (hd : List (Nat × Moments)) (focal : Nat → ℚ) (positions : Nat → V3)
    (ap : Pointing)
    (hflag : st.divergent_mode = false) (hflag' : st'.divergent_mode = false) :
    (predict o st hd focal positions ap none).2
      = (predict o st' hd focal positions ap none).2 := by
  unfold predict
  by_cases h0 : hd.length < 2
  · rw [if_pos h0, if_pos h0]
  · rw [if_neg h0, if_neg h0]
    by_cases h1 : (hd.any fun tm => tm.2.width.isNaN) = true
    · rw [if_pos h1, if_pos h1]
    · rw [if_neg h1, if_neg h1]
      by_cases h2 : (hd.any fun tm => tm.2.width.isZero) = true
      · rw [if_pos h2, if_pos h2]
      · rw [if_neg h2, if_neg h2]
        unfold predictBody
        exact predictAssemble_snd_congr o _ _ hd ap
          (by rw [initHillasPlanes_divergent_mode]; exact hflag)
          (by rw [initHillasPlanes_divergent_mode]; exact hflag')
          (initHillasPlanes_planes_const o st st' hd focal positions _ ap)

/-- A non-divergent call never sets the divergent flag. -/
theorem predict_fst_divergent_none (o : FrameOracle) (st : RecoState)
    (hd : List (Nat × Moments)) (focal : Nat → ℚ) (positions : Nat → V3)
    (ap : Pointing) :
    ((predict o st hd focal positions ap none).1).divergent_mode
      = st.divergent_mode := by
  unfold predict
  by_cases h0 : hd.length < 2
  · rw [if_pos h0]
  · rw [if_neg h0]
    by_cases h1 : (hd.any fun tm => tm.2.width.isNaN) = true
    · rw [if_pos h1]
    · rw [if_neg h1]
      by_cases h2 : (hd.any fun tm => tm.2.width.isZero) = true
      · rw [if_pos h2]
      · rw [if_neg h2]
        unfold predictBody
        rw [predictAssemble_fst, initHillasPlanes_divergent_mode]

theorem runCalls_flag (o : FrameOracle) (calls : List CallArgs)
    (hall : ∀ c ∈ calls, c.tps = none) :
    ∀ st : RecoState, st.divergent_mode = false →
      (runCalls o st calls).divergent_mode = false := by
  induction calls with
  | nil => intro st h; exact h
  | cons c rest ih =>
      intro st h
      simp only [runCalls]
      refine ih (fun c' hc' => hall c' (List.mem_cons_of_mem _ hc')) _ ?_
      rw [hall c (List.mem_cons_self _ _)]
      rw [predict_fst_divergent_none]
      exact h

/-- C9 (amended).  `predict` with `telescopes_pointings=None` is a pure
function of its arguments as long as no earlier call on the same instance
used divergent mode: after any history of non-divergent calls the outcome
coincides with that on a fresh instance.  (A prior divergent call breaks
this — see the counterexample — because `divergent_mode` is set but never
reset.) -/
theorem claim_C9_amended (o : FrameOracle) (prior : List CallArgs)
    (hd : List (Nat × Moments)) (focal : Nat → ℚ) (positions : Nat → V3)
    (ap : Pointing) (hall : ∀ c ∈ prior, c.tps = none) :
    (predict o (runCalls o initState prior) hd focal positions ap none).2
      = (predict o initState hd focal positions ap none).2 := by
  refine predict_none_snd_congr o _ _ hd focal positions ap ?_ rfl
  exact runCalls_flag o prior hall initState rfl

/-- Counterexample to C9 as stated: the same `telescopes_pointings=None`
call succeeds on a fresh instance but fails with a singular intersection
after an earlier divergent-mode call on the same instance, because the
never-reset `divergent_mode` flag makes the second call consume the stale
`corrected_angle_dict` (whose extra entries are zipped against the new,
shorter telescope list). -/
theorem claim_C9_counterexample :
    (predict oracleT
        (predict oracleT initState hdC9B (fun _ => 1) (fun _ => 0) (0, 0)
          (some tpsC9B)).1
        hdC9A (fun _ => 1) (fun _ => 0) (0, 0) none).2
      ≠ (predict oracleT initState hdC9A (fun _ => 1) (fun _ => 0) (0, 0) none).2 := by
  norm_num [predict, predictBody, predictAssemble, initHillasPlanes, planeFor,
    correctionFor, mkHillasPlane, estimateCorePos, estimateHMaxSq, estimateDirVec,
    crossingsOf, pairsOf, line_line_intersection_3d, sumS, sumC, lineMat,
    M3.listSum, M3.add, M3.sub, M3.eye, M3.smul, M3.mulVec, M3.det, M3.adjugate,
    M3.zeroM, V3.cross, V3.dot, V3.sqnorm, Moments.planeWeight, FQ.isNaN,
    FQ.isZero, dictInsert, oracleT, List.lookup, initState, hdC9B, tpsC9B, hdC9A,
    V3.one_smul, List.sum_cons, List.sum_nil]
  exact fun h => Except.noConfusion h

/-- Witness for the amended C9: a one-call non-divergent history leaves
the outcome of a later parallel-pointing call unchanged. -/
theorem claim_C9_witness :
    (∀ c ∈ [(⟨hdC9A, fun _ => 1, fun _ => 0, (0, 0), none⟩ : CallArgs)],
      c.tps = none) ∧
    (predict oracleT
        (runCalls oracleT initState
          [(⟨hdC9A, fun _ => 1, fun _ => 0, (0, 0), none⟩ : CallArgs)])
        hdC9A (fun _ => 1) (fun _ => 0) (0, 0) none).2
      = (predict oracleT initState hdC9A (fun _ => 1) (fun _ => 0) (0, 0) none).2 :=
  ⟨by intro c hc
      simp only [List.mem_singleton] at hc
      rw [hc],
   claim_C9_amended oracleT [⟨hdC9A, fun _ => 1, fun _ => 0, (0, 0), none⟩]
     hdC9A (fun _ => 1) (fun _ => 0) (0, 0)
     (by intro c hc
         simp only [List.mem_singleton] at hc
         rw [hc])⟩
